import Mathlib

/-!
Verification development for the wassette runtime.

This file gives a shallow embedding of the core of the repository and proves
properties of it:

* the JSON value bridge of `crates/component2json/src/lib.rs`
  (`val_to_json`, `json_to_val`, `object_to_val`, `vals_to_json`, `json_to_vals`);
* the component registry of `crates/weld/src/lib.rs` / `crates/wassette/src/lib.rs`
  (`register_component`, `unregister_component`, `get_component_id_for_tool`);
* the lifecycle manager operations `load_component`, `unload_component`,
  `uninstall_component`, and the startup scan `new_with_policy`;
* the granular permission engine (`grant_permission`,
  `add_permission_rule_to_policy`) and the sandbox template builder
  (`WasiStateTemplate::build`).

Machine integers are modelled as `Nat`/`Int` with explicit range predicates,
`serde_json::Value` as an inductive `Json` whose objects are the sorted
association lists a `BTreeMap<String, Value>` holds, and fallible Rust
functions as `Except`-valued Lean functions.  Effects (file copies succeeding,
policy files parsing) become explicit parameters of the embedded functions.
-/

namespace Wassette

/-! ## JSON values (serde_json::Value) -/

/-- Model of a finite or non-finite `f64`.  The numeric value itself is kept
abstract; what the bridge observes of a float is whether it is finite (so that
`serde_json::Number::from_f64` accepts it) and its display string (used when a
non-finite float is serialized as a string).  Bitwise-distinct finite floats
have distinct display strings in Rust, so equality of this representation
models `f64` equality on the values the theorems touch. -/
structure FloatRepr where
  isFinite : Bool
  display : String
deriving DecidableEq, Repr

/-- Model of an `f32` as carried by `Val::Float32`: the value widened to `f64`
(Rust serializes `*f as f64`) together with the `f32` display string used when
the float is non-finite. -/
structure Float32Repr where
  widened : FloatRepr
  display : String
deriving DecidableEq, Repr

/-- Model of `serde_json::Number`: a `u64` magnitude, a negative `i64`, or a
float (the three arms of serde_json\x27s internal `N` enum, whose derived
equality is arm-wise). -/
inductive JNum where
  | posInt (n : Nat)
  | negInt (n : Int)
  | float (f : FloatRepr)
deriving DecidableEq, Repr

/-- Largest `i64`. -/
def i64Max : Int := 2 ^ 63 - 1

/-- Smallest `i64`. -/
def i64Min : Int := -(2 ^ 63)

/-- Model of `serde_json::Number::from_f64`, which refuses non-finite floats. -/
def JNum.from_f64 (f : FloatRepr) : Option JNum :=
  if f.isFinite then some (JNum.float f) else none

/-- Model of `serde_json::Number::from(i64)`: non-negative values are stored in
the `PosInt` arm, negative ones in the `NegInt` arm. -/
def JNum.fromI64 (n : Int) : JNum :=
  if 0 ≤ n then JNum.posInt n.toNat else JNum.negInt n

/-- Model of `Number::as_i64`: a `PosInt` converts when it fits in `i64`, a
`NegInt` always converts, a float never does (serde never treats the float arm
as an integer). -/
def JNum.as_i64 : JNum → Option Int
  | JNum.posInt n => if (n : Int) ≤ i64Max then some (n : Int) else none
  | JNum.negInt n => some n
  | JNum.float _ => none

/-- Abstraction of the `u64 → f64` conversion serde performs in `as_f64`; the
numeric rounding is irrelevant to every theorem below, only that the
conversion succeeds. -/
def natToF64 (n : Nat) : FloatRepr :=
  { isFinite := true, display := toString n }

/-- Abstraction of the `i64 → f64` conversion serde performs in `as_f64`. -/
def intToF64 (n : Int) : FloatRepr :=
  { isFinite := true, display := toString n }

/-- Model of `Number::as_f64`, which succeeds on every arm. -/
def JNum.as_f64 : JNum → Option FloatRepr
  | JNum.posInt n => some (natToF64 n)
  | JNum.negInt n => some (intToF64 n)
  | JNum.float f => some f

/-- Model of `serde_json::Value`.  An object is the sorted association list
underlying a `BTreeMap<String, Value>` (the default serde_json map); all
objects constructed by the embedded code go through `Json.insertSorted`, which
maintains the strictly-sorted-keys invariant exactly as `BTreeMap::insert`
does. -/
inductive Json where
  | null
  | bool (b : Bool)
  | num (n : JNum)
  | str (s : String)
  | arr (elems : List Json)
  | obj (fields : List (String × Json))
deriving Repr

/-- Model of `BTreeMap::insert`: place the binding at its sorted position,
replacing the value if the key is already present. -/
def Json.insertSorted (m : List (String × Json)) (k : String) (v : Json) :
    List (String × Json) :=
  match m with
  | [] => [(k, v)]
  | (k₀, v₀) :: rest =>
    if k < k₀ then (k, v) :: (k₀, v₀) :: rest
    else if k = k₀ then (k, v) :: rest
    else (k₀, v₀) :: Json.insertSorted rest k v

/-- Build a `BTreeMap` by inserting the listed bindings in order, as the
`json!` macro and the serialization code do. -/
def Json.buildObj (l : List (String × Json)) : List (String × Json) :=
  l.foldl (fun m kv => Json.insertSorted m kv.1 kv.2) []

/-- Model of `BTreeMap::get`. -/
def Json.lookup : List (String × Json) → String → Option Json
  | [], _ => none
  | (k, v) :: rest, key => if k = key then some v else Json.lookup rest key

/-- Model of indexing `value["key"]` on a shared `serde_json::Value`, which
yields `Null` when the value is not an object or the key is absent. -/
def Json.index (j : Json) (key : String) : Json :=
  match j with
  | Json.obj fields => (Json.lookup fields key).getD Json.null
  | _ => Json.null

/-! ## Typed values (wasmtime::component::Val) and the bridge -/

/-- Model of `wasmtime::component::Val`.  The `result` arm packs
`Result<Option<Box<Val>>, Option<Box<Val>>>` as a Boolean discriminant (`Ok`
versus `Err`) plus the optional payload; a resource handle is opaque and kept
as a token. -/
inductive Val where
  | bool (b : Bool)
  | s8 (n : Int)
  | u8 (n : Nat)
  | s16 (n : Int)
  | u16 (n : Nat)
  | s32 (n : Int)
  | u32 (n : Nat)
  | s64 (n : Int)
  | u64 (n : Nat)
  | float32 (f : Float32Repr)
  | float64 (f : FloatRepr)
  | char (c : Char)
  | str (s : String)
  | list (elems : List Val)
  | record (fields : List (String × Val))
  | tuple (elems : List Val)
  | variant (tag : String) (payload : Option Val)
  | enumCase (name : String)
  | option (payload : Option Val)
  | result (isOk : Bool) (payload : Option Val)
  | flags (names : List String)
  | resource (handle : Nat)
deriving Repr

/-- Model of `component2json::ValError`. -/
inductive ValError where
  | numberError (s : String)
  | invalidChar (s : String)
  | shapeError (expected : String) (observed : String)
  | unknownShape
  | resourceError
deriving DecidableEq, Repr

/-- Abstraction of the `format!("\x7b:?\x7d", res)` debug string printed for a
resource handle; parsing always rejects it, so only that it is some string
matters. -/
def resourceDebug (handle : Nat) : String :=
  "ResourceAny-" ++ toString handle

mutual

/-- Model of `component2json::val_to_json`.  Objects are built with
`Json.buildObj`, mirroring the `serde_json::Map` insertions performed by the
Rust code (including the `json!` literals). -/
def val_to_json : Val → Json
  | Val.bool b => Json.bool b
  | Val.s8 n => Json.num (JNum.fromI64 n)
  | Val.u8 n => Json.num (JNum.posInt n)
  | Val.s16 n => Json.num (JNum.fromI64 n)
  | Val.u16 n => Json.num (JNum.posInt n)
  | Val.s32 n => Json.num (JNum.fromI64 n)
  | Val.u32 n => Json.num (JNum.posInt n)
  | Val.s64 n => Json.num (JNum.fromI64 n)
  | Val.u64 n => Json.num (JNum.posInt n)
  | Val.float32 f =>
    match JNum.from_f64 f.widened with
    | some m => Json.num m
    | none => Json.str f.display
  | Val.float64 f =>
    match JNum.from_f64 f with
    | some m => Json.num m
    | none => Json.str f.display
  | Val.char c => Json.str (String.singleton c)
  | Val.str s => Json.str s
  | Val.list xs => Json.arr (valList_to_json xs)
  | Val.record fields => Json.obj (Json.buildObj (valFields_to_json fields))
  | Val.tuple xs =>
    Json.obj (Json.buildObj [("__tuple", Json.arr (valList_to_json xs))])
  | Val.variant tag payload =>
    match payload with
    | some v =>
      Json.obj (Json.buildObj [("__variant", Json.str tag), ("val", val_to_json v)])
    | none => Json.obj (Json.buildObj [("__variant", Json.str tag)])
  | Val.enumCase s => Json.obj (Json.buildObj [("__enum", Json.str s)])
  | Val.option none => Json.obj (Json.buildObj [("__option", Json.str "None")])
  | Val.option (some v) =>
    Json.obj (Json.buildObj [("__option", Json.str "Some"), ("val", val_to_json v)])
  | Val.result isOk payload =>
    Json.obj (Json.buildObj
      [("__result", Json.str (if isOk then "Ok" else "Err")),
       ("val", match payload with
               | some v => val_to_json v
               | none => Json.null)])
  | Val.flags names =>
    Json.obj (Json.buildObj
      [("__flags", Json.obj (Json.buildObj (names.map fun n => (n, Json.bool true))))])
  | Val.resource h =>
    Json.obj (Json.buildObj [("__resource", Json.str (resourceDebug h))])

/-- Serialization of a list of values, element by element. -/
def valList_to_json : List Val → List Json
  | [] => []
  | v :: vs => val_to_json v :: valList_to_json vs

/-- Serialization of record fields, field by field. -/
def valFields_to_json : List (String × Val) → List (String × Json)
  | [] => []
  | (k, v) :: fields => (k, val_to_json v) :: valFields_to_json fields

end

/-- Model of the flag-collection loop inside `object_to_val`: keep the keys
whose value is literally `true`. -/
def collectFlags (fields : List (String × Json)) : List String :=
  fields.filterMap fun kv =>
    match kv.2 with
    | Json.bool true => some kv.1
    | _ => none

/-- Model of `Value::is_null`. -/
def Json.isNull : Json → Bool
  | Json.null => true
  | _ => false

theorem sizeOf_Json_lookup : ∀ {fields : List (String × Json)} {k : String} {v : Json},
    Json.lookup fields k = some v → sizeOf v < sizeOf fields := by
  intro fields k v h
  induction fields with
  | nil => simp [Json.lookup] at h
  | cons hd tl ih =>
    obtain ⟨k₀, v₀⟩ := hd
    simp only [Json.lookup] at h
    split at h
    · cases h; simp; omega
    · have := ih h; simp; omega

mutual

/-- Model of `component2json::json_to_val`: strings stay strings, numbers try
`i64` then `f64`, arrays become lists, stand-alone `null` is rejected, and
objects go through the discriminator cascade of `object_to_val`. -/
def json_to_val : Json → Except ValError Val
  | Json.null => Except.error (ValError.shapeError "null" "stand-alone null not allowed")
  | Json.bool b => Except.ok (Val.bool b)
  | Json.num num =>
    match num.as_i64 with
    | some i => Except.ok (Val.s64 i)
    | none =>
      match num.as_f64 with
      | some f => Except.ok (Val.float64 f)
      | none => Except.error (ValError.numberError "not i64 nor f64")
  | Json.str s => Except.ok (Val.str s)
  | Json.arr elems =>
    match jsonList_to_vals elems with
    | Except.ok vs => Except.ok (Val.list vs)
    | Except.error e => Except.error e
  | Json.obj fields => object_to_val fields
termination_by j => (sizeOf j, 5)

/-- Parsing of each element of a JSON array. -/
def jsonList_to_vals : List Json → Except ValError (List Val)
  | [] => Except.ok []
  | j :: js =>
    match json_to_val j with
    | Except.error e => Except.error e
    | Except.ok v =>
      match jsonList_to_vals js with
      | Except.error e => Except.error e
      | Except.ok vs => Except.ok (v :: vs)
termination_by l => (sizeOf l, 3)

/-- Recursive parsing of the fields of an object that fell through every
discriminator check (the final `Record` branch of `object_to_val`). -/
def recordFields_to_vals : List (String × Json) → Except ValError (List (String × Val))
  | [] => Except.ok []
  | (k, j) :: fields =>
    match json_to_val j with
    | Except.error e => Except.error e
    | Except.ok v =>
      match recordFields_to_vals fields with
      | Except.error e => Except.error e
      | Except.ok vs => Except.ok ((k, v) :: vs)
termination_by l => (sizeOf l, 3)

/-- Model of `component2json::object_to_val`: the `__result`, `__variant`,
`__option` checks, then the single-key checks (`__tuple`, `__enum`,
`__resource`, `__flags`), then the `Record` fallback.  Each `tryX` helper
returns `none` exactly where the Rust code falls through to the next check. -/
def object_to_val (fields : List (String × Json)) : Except ValError Val :=
  match tryResult fields with
  | some r => r
  | none =>
  match tryVariant fields with
  | some r => r
  | none =>
  match tryOption fields with
  | some r => r
  | none =>
  match trySingleKey fields with
  | some r => r
  | none =>
  match recordFields_to_vals fields with
  | Except.ok vs => Except.ok (Val.record vs)
  | Except.error e => Except.error e
termination_by (sizeOf fields, 4)

/-- Model of the `__result` branch.  Note that the payload under `"val"` is
parsed (and a parse error propagated) before the `Ok`/`Err` tag is matched,
exactly as in the Rust code. -/
def tryResult (fields : List (String × Json)) : Option (Except ValError Val) :=
  match Json.lookup fields "__result" with
  | some (Json.str resultType) =>
    if fields.length = 2 then
      match h : Json.lookup fields "val" with
      | some v =>
        match (if v.isNull then Except.ok none
               else (json_to_val v).map Option.some :
                 Except ValError (Option Val)) with
        | Except.error e => some (Except.error e)
        | Except.ok inner =>
          match resultType with
          | "Ok" => some (Except.ok (Val.result true inner))
          | "Err" => some (Except.ok (Val.result false inner))
          | _ => none
      | none => none
    else none
  | _ => none
termination_by (sizeOf fields, 2)

decreasing_by
  all_goals
    (have hsz := sizeOf_Json_lookup h
     simp at hsz
     simp_wf
     first
       | (apply Prod.Lex.left; omega)
       | omega)

/-- Model of the `__variant` branch. -/
def tryVariant (fields : List (String × Json)) : Option (Except ValError Val) :=
  match Json.lookup fields "__variant" with
  | some (Json.str tag) =>
    match fields.length with
    | 1 => some (Except.ok (Val.variant tag none))
    | 2 =>
      match h : Json.lookup fields "val" with
      | some v =>
        match json_to_val v with
        | Except.error e => some (Except.error e)
        | Except.ok pv => some (Except.ok (Val.variant tag (some pv)))
      | none => none
    | _ => none
  | _ => none
termination_by (sizeOf fields, 2)

decreasing_by
  all_goals
    (have hsz := sizeOf_Json_lookup h
     simp at hsz
     simp_wf
     first
       | (apply Prod.Lex.left; omega)
       | omega)

/-- Model of the `__option` branch. -/
def tryOption (fields : List (String × Json)) : Option (Except ValError Val) :=
  match Json.lookup fields "__option" with
  | some (Json.str optionType) =>
    match optionType with
    | "None" => if fields.length = 1 then some (Except.ok (Val.option none)) else none
    | "Some" =>
      if fields.length = 2 then
        match h : Json.lookup fields "val" with
        | some v =>
          match json_to_val v with
          | Except.error e => some (Except.error e)
          | Except.ok pv => some (Except.ok (Val.option (some pv)))
        | none => none
      else none
    | _ => none
  | _ => none
termination_by (sizeOf fields, 2)

decreasing_by
  all_goals
    (have hsz := sizeOf_Json_lookup h
     simp at hsz
     simp_wf
     first
       | (apply Prod.Lex.left; omega)
       | omega)

/-- Model of the four checks guarded by `obj.len() == 1`: `__tuple` (with an
array value), `__enum`, `__resource` (always rejected), `__flags`. -/
def trySingleKey (fields : List (String × Json)) : Option (Except ValError Val) :=
  if fields.length = 1 then
    match h : Json.lookup fields "__tuple" with
    | some (Json.arr items) =>
      match jsonList_to_vals items with
      | Except.ok vs => some (Except.ok (Val.tuple vs))
      | Except.error e => some (Except.error e)
    | _ =>
    match Json.lookup fields "__enum" with
    | some (Json.str enumValue) => some (Except.ok (Val.enumCase enumValue))
    | _ =>
    match Json.lookup fields "__resource" with
    | some (Json.str _) => some (Except.error ValError.resourceError)
    | _ =>
    match Json.lookup fields "__flags" with
    | some (Json.obj flagsObj) => some (Except.ok (Val.flags (collectFlags flagsObj)))
    | _ => none
  else none
termination_by (sizeOf fields, 2)

decreasing_by
  all_goals
    (have hsz := sizeOf_Json_lookup h
     simp at hsz
     simp_wf
     first
       | (apply Prod.Lex.left; omega)
       | omega)

end

/-- Model of `component2json::json_to_vals` (the one-argument version): an
object is a parallel bundle of independently parsed values, anything else is a
single value. -/
def json_to_vals (j : Json) : Except ValError (List Val) :=
  match j with
  | Json.obj fields => jsonList_to_vals (fields.map Prod.snd)
  | _ =>
    match json_to_val j with
    | Except.ok v => Except.ok [v]
    | Except.error e => Except.error e

/-- Model of `component2json::vals_to_json`: `null` for zero values, the value
itself for one, a `val0 … valN` object for two or more. -/
def vals_to_json (vals : List Val) : Json :=
  match vals with
  | [] => Json.null
  | [v] => val_to_json v
  | _ =>
    Json.obj (Json.buildObj
      (vals.enum.map fun p => ("val" ++ toString p.1, val_to_json p.2)))

/-! ## Lemmas about the map model -/

/-- Strictly sorted keys, the invariant of a `BTreeMap`. -/
def KeysSorted (l : List (String × Json)) : Prop :=
  l.Pairwise fun a b => a.1 < b.1

theorem Json.lookup_insertSorted_self (m : List (String × Json)) (k : String) (v : Json) :
    Json.lookup (Json.insertSorted m k v) k = some v := by
  induction m with
  | nil => simp [Json.insertSorted, Json.lookup]
  | cons hd tl ih =>
    obtain ⟨k₀, v₀⟩ := hd
    simp only [Json.insertSorted]
    split
    · simp [Json.lookup]
    · split
      · simp [Json.lookup]
      · rename_i h₁ h₂
        simp only [Json.lookup]
        rw [if_neg (fun hne => h₂ hne.symm), ih]

theorem Json.lookup_insertSorted_ne (m : List (String × Json)) (k k' : String) (v : Json)
    (hne : k' ≠ k) :
    Json.lookup (Json.insertSorted m k v) k' = Json.lookup m k' := by
  induction m with
  | nil => simp [Json.insertSorted, Json.lookup, Ne.symm hne]
  | cons hd tl ih =>
    obtain ⟨k₀, v₀⟩ := hd
    simp only [Json.insertSorted]
    split
    · simp only [Json.lookup]
      rw [if_neg (Ne.symm hne)]
    · split
      · rename_i h₁ h₂
        subst h₂
        simp only [Json.lookup]
        rw [if_neg (Ne.symm hne), if_neg (Ne.symm hne)]
      · simp only [Json.lookup]
        split
        · rfl
        · exact ih

theorem Json.mem_insertSorted {m : List (String × Json)} {k : String} {v : Json}
    {p : String × Json} (hp : p ∈ Json.insertSorted m k v) : p = (k, v) ∨ p ∈ m := by
  induction m with
  | nil => simpa [Json.insertSorted] using hp
  | cons hd tl ih =>
    obtain ⟨k₀, v₀⟩ := hd
    simp only [Json.insertSorted] at hp
    split at hp
    · rcases List.mem_cons.mp hp with h | h
      · exact Or.inl h
      · exact Or.inr h
    · split at hp
      · rcases List.mem_cons.mp hp with h | h
        · exact Or.inl h
        · exact Or.inr (List.mem_cons_of_mem _ h)
      · rcases List.mem_cons.mp hp with h | h
        · exact Or.inr (by simp [h])
        · rcases ih h with h₁ | h₁
          · exact Or.inl h₁
          · exact Or.inr (List.mem_cons_of_mem _ h₁)

theorem Json.mem_buildObj {l : List (String × Json)} {p : String × Json}
    (hp : p ∈ Json.buildObj l) : p ∈ l := by
  suffices h : ∀ acc, p ∈ l.foldl (fun m kv => Json.insertSorted m kv.1 kv.2) acc →
      p ∈ acc ∨ p ∈ l by
    rcases h [] hp with h₁ | h₁
    · simp at h₁
    · exact h₁
  clear hp
  induction l with
  | nil => intro acc h; exact Or.inl h
  | cons hd tl ih =>
    intro acc h
    rcases ih (Json.insertSorted acc hd.1 hd.2) h with h₁ | h₁
    · rcases Json.mem_insertSorted h₁ with h₂ | h₂
      · exact Or.inr (by simp [h₂])
      · exact Or.inl h₂
    · exact Or.inr (by simp [h₁])

theorem Json.keys_insertSorted {m : List (String × Json)} {k a : String} {v : Json}
    (ha : a ∈ (Json.insertSorted m k v).map Prod.fst) :
    a = k ∨ a ∈ m.map Prod.fst := by
  simp only [List.mem_map] at ha ⊢
  obtain ⟨p, hp, hpa⟩ := ha
  rcases Json.mem_insertSorted hp with h | h
  · subst h; exact Or.inl hpa.symm
  · exact Or.inr ⟨p, h, hpa⟩

theorem Json.insertSorted_perm_of_not_mem {m : List (String × Json)} {k : String}
    {v : Json} (hk : k ∉ m.map Prod.fst) :
    (Json.insertSorted m k v).Perm ((k, v) :: m) := by
  induction m with
  | nil => simp [Json.insertSorted]
  | cons hd tl ih =>
    obtain ⟨k₀, v₀⟩ := hd
    simp only [List.map_cons, List.mem_cons] at hk
    push_neg at hk
    simp only [Json.insertSorted]
    split
    · exact List.Perm.refl _
    · split
      · exact absurd (by assumption) hk.1
      · exact ((ih hk.2).cons _).trans (List.Perm.swap _ _ _)

theorem Json.buildObj_perm_of_nodup {l : List (String × Json)}
    (hnd : (l.map Prod.fst).Nodup) : (Json.buildObj l).Perm l := by
  suffices h : ∀ acc : List (String × Json),
      (acc.map Prod.fst ++ l.map Prod.fst).Nodup →
      (l.foldl (fun m kv => Json.insertSorted m kv.1 kv.2) acc).Perm (acc ++ l) by
    simpa [Json.buildObj] using h [] (by simpa using hnd)
  clear hnd
  induction l with
  | nil => intro acc _; simp
  | cons hd tl ih =>
    intro acc hnd
    simp only [List.foldl_cons]
    have hk : hd.1 ∉ acc.map Prod.fst := by
      intro hmem
      exact (List.disjoint_of_nodup_append hnd) hmem (by simp)
    have hins := Json.insertSorted_perm_of_not_mem (m := acc) (v := hd.2) hk
    have hnd₁ : (hd.1 :: (acc.map Prod.fst ++ tl.map Prod.fst)).Nodup := by
      have hperm : (acc.map Prod.fst ++ hd.1 :: tl.map Prod.fst).Perm
          (hd.1 :: (acc.map Prod.fst ++ tl.map Prod.fst)) := List.perm_middle
      exact hperm.nodup (by simpa using hnd)
    have hkeys : ((Json.insertSorted acc hd.1 hd.2).map Prod.fst
        ++ tl.map Prod.fst).Nodup := by
      have hperm₂ : ((Json.insertSorted acc hd.1 hd.2).map Prod.fst
          ++ tl.map Prod.fst).Perm
            (hd.1 :: (acc.map Prod.fst ++ tl.map Prod.fst)) := by
        refine ((hins.map Prod.fst).append_right _).trans ?_
        simp
      exact hperm₂.symm.nodup hnd₁
    have := ih (Json.insertSorted acc hd.1 hd.2) hkeys
    refine this.trans ?_
    refine (hins.append_right tl).trans ?_
    exact List.perm_middle.symm.trans (by simp)

theorem Json.length_buildObj {l : List (String × Json)}
    (hnd : (l.map Prod.fst).Nodup) : (Json.buildObj l).length = l.length :=
  (Json.buildObj_perm_of_nodup hnd).length_eq

theorem Json.insertSorted_of_lt {m : List (String × Json)} {k : String} {v : Json}
    (hk : ∀ p ∈ m, p.1 < k) : Json.insertSorted m k v = m ++ [(k, v)] := by
  induction m with
  | nil => simp [Json.insertSorted]
  | cons hd tl ih =>
    obtain ⟨k₀, v₀⟩ := hd
    have h₀ : k₀ < k := hk (k₀, v₀) (by simp)
    simp only [Json.insertSorted]
    rw [if_neg (by exact fun h => absurd (h.trans h₀) (lt_irrefl k)),
        if_neg (by rintro rfl; exact absurd h₀ (lt_irrefl k))]
    simp only [List.cons_append, List.cons.injEq, true_and]
    exact ih fun p hp => hk p (by simp [hp])

/-- Inserting strictly sorted bindings in order reproduces the list itself:
the `BTreeMap` built from already-sorted distinct keys is that list. -/
theorem Json.buildObj_of_sorted {l : List (String × Json)} (hs : KeysSorted l) :
    Json.buildObj l = l := by
  suffices h : ∀ acc : List (String × Json),
      (∀ p ∈ acc, ∀ q ∈ l, p.1 < q.1) → KeysSorted l →
      l.foldl (fun m kv => Json.insertSorted m kv.1 kv.2) acc = acc ++ l by
    simpa [Json.buildObj] using h [] (by simp) hs
  clear hs
  induction l with
  | nil => intro acc _ _; simp
  | cons hd tl ih =>
    intro acc hlt hs
    simp only [List.foldl_cons]
    rw [Json.insertSorted_of_lt (fun p hp => hlt p hp hd (by simp))]
    rw [ih (acc ++ [(hd.1, hd.2)]) ?_ (List.Pairwise.of_cons hs)]
    · simp
    · intro p hp q hq
      rcases List.mem_append.mp hp with h | h
      · exact hlt p h q (by simp [hq])
      · simp only [List.mem_singleton] at h
        subst h
        exact (List.pairwise_cons.mp hs).1 q hq

/-! ## Induction principle for values -/

theorem sizeOf_lt_of_mem_val {v : Val} {xs : List Val} (h : v ∈ xs) :
    sizeOf v < sizeOf xs :=
  List.sizeOf_lt_of_mem h

theorem sizeOf_snd_lt_of_mem_fields {p : String × Val} {fs : List (String × Val)}
    (h : p ∈ fs) : sizeOf p.2 < sizeOf fs := by
  have h₁ : sizeOf p < sizeOf fs := List.sizeOf_lt_of_mem h
  obtain ⟨k, v⟩ := p
  simp at h₁ ⊢
  omega

/-- Structural induction over `Val` with elementwise hypotheses at the nested
list and option positions. -/
def Val.inductionOn {P : Val → Prop}
    (hbool : ∀ b, P (Val.bool b))
    (hs8 : ∀ n, P (Val.s8 n)) (hu8 : ∀ n, P (Val.u8 n))
    (hs16 : ∀ n, P (Val.s16 n)) (hu16 : ∀ n, P (Val.u16 n))
    (hs32 : ∀ n, P (Val.s32 n)) (hu32 : ∀ n, P (Val.u32 n))
    (hs64 : ∀ n, P (Val.s64 n)) (hu64 : ∀ n, P (Val.u64 n))
    (hf32 : ∀ f, P (Val.float32 f)) (hf64 : ∀ f, P (Val.float64 f))
    (hchar : ∀ c, P (Val.char c)) (hstr : ∀ s, P (Val.str s))
    (hlist : ∀ xs, (∀ x ∈ xs, P x) → P (Val.list xs))
    (hrecord : ∀ fs, (∀ p ∈ fs, P (Prod.snd p)) → P (Val.record fs))
    (htuple : ∀ xs, (∀ x ∈ xs, P x) → P (Val.tuple xs))
    (hvariant : ∀ tag payload, (∀ v ∈ payload, P v) → P (Val.variant tag payload))
    (henum : ∀ s, P (Val.enumCase s))
    (hoption : ∀ payload, (∀ v ∈ payload, P v) → P (Val.option payload))
    (hresult : ∀ isOk payload, (∀ v ∈ payload, P v) → P (Val.result isOk payload))
    (hflags : ∀ names, P (Val.flags names))
    (hresource : ∀ h, P (Val.resource h)) :
    ∀ v, P v := fun v =>
  match v with
  | Val.bool b => hbool b
  | Val.s8 n => hs8 n
  | Val.u8 n => hu8 n
  | Val.s16 n => hs16 n
  | Val.u16 n => hu16 n
  | Val.s32 n => hs32 n
  | Val.u32 n => hu32 n
  | Val.s64 n => hs64 n
  | Val.u64 n => hu64 n
  | Val.float32 f => hf32 f
  | Val.float64 f => hf64 f
  | Val.char c => hchar c
  | Val.str s => hstr s
  | Val.list xs =>
    hlist xs fun x hx =>
      Val.inductionOn hbool hs8 hu8 hs16 hu16 hs32 hu32 hs64 hu64 hf32 hf64 hchar
        hstr hlist hrecord htuple hvariant henum hoption hresult hflags hresource x
  | Val.record fs =>
    hrecord fs fun p hp =>
      Val.inductionOn hbool hs8 hu8 hs16 hu16 hs32 hu32 hs64 hu64 hf32 hf64 hchar
        hstr hlist hrecord htuple hvariant henum hoption hresult hflags hresource p.2
  | Val.tuple xs =>
    htuple xs fun x hx =>
      Val.inductionOn hbool hs8 hu8 hs16 hu16 hs32 hu32 hs64 hu64 hf32 hf64 hchar
        hstr hlist hrecord htuple hvariant henum hoption hresult hflags hresource x
  | Val.variant tag payload =>
    hvariant tag payload fun v hv =>
      Val.inductionOn hbool hs8 hu8 hs16 hu16 hs32 hu32 hs64 hu64 hf32 hf64 hchar
        hstr hlist hrecord htuple hvariant henum hoption hresult hflags hresource v
  | Val.enumCase s => henum s
  | Val.option payload =>
    hoption payload fun v hv =>
      Val.inductionOn hbool hs8 hu8 hs16 hu16 hs32 hu32 hs64 hu64 hf32 hf64 hchar
        hstr hlist hrecord htuple hvariant henum hoption hresult hflags hresource v
  | Val.result isOk payload =>
    hresult isOk payload fun v hv =>
      Val.inductionOn hbool hs8 hu8 hs16 hu16 hs32 hu32 hs64 hu64 hf32 hf64 hchar
        hstr hlist hrecord htuple hvariant henum hoption hresult hflags hresource v
  | Val.flags names => hflags names
  | Val.resource h => hresource h
termination_by v => sizeOf v
decreasing_by
  all_goals
    first
      | (exact Nat.lt_trans (sizeOf_lt_of_mem_val hx) (by simp))
      | (exact Nat.lt_trans (sizeOf_lt_of_mem_val hx) (by simp; omega))
      | (exact Nat.lt_trans (sizeOf_snd_lt_of_mem_fields hp) (by simp))
      | (exact Nat.lt_trans (sizeOf_snd_lt_of_mem_fields hp) (by simp; omega))
      | (rcases Option.mem_def.mp hv with h; subst h; omega)
      | (rcases Option.mem_def.mp hv with h; subst h; simp; omega)

/-! ## Value predicates -/

/-- Keys that trigger the discriminator cascade of `object_to_val`. -/
def reservedKeys : List String :=
  ["__result", "__variant", "__option", "__tuple", "__enum", "__resource", "__flags"]

/-- Whether a record field name collides with a discriminator key. -/
def reservedKey (k : String) : Bool :=
  reservedKeys.contains k

mutual

/-- Exclusions of the round-trip law exactly as the specification states them:
no `Char`, no `Float32`, no resource, no integer of a width other than `S64`
(an `S64` additionally carries its `i64` range, which is implicit in Rust). -/
def claimEligible : Val → Bool
  | Val.bool _ => true
  | Val.s8 _ => false
  | Val.u8 _ => false
  | Val.s16 _ => false
  | Val.u16 _ => false
  | Val.s32 _ => false
  | Val.u32 _ => false
  | Val.s64 n => decide (i64Min ≤ n) && decide (n ≤ i64Max)
  | Val.u64 _ => false
  | Val.float32 _ => false
  | Val.float64 _ => true
  | Val.char _ => false
  | Val.str _ => true
  | Val.list xs => claimEligibleList xs
  | Val.record fs => claimEligibleFields fs
  | Val.tuple xs => claimEligibleList xs
  | Val.variant _ payload => claimEligibleOpt payload
  | Val.enumCase _ => true
  | Val.option payload => claimEligibleOpt payload
  | Val.result _ payload => claimEligibleOpt payload
  | Val.flags _ => true
  | Val.resource _ => false

def claimEligibleList : List Val → Bool
  | [] => true
  | v :: vs => claimEligible v && claimEligibleList vs

def claimEligibleFields : List (String × Val) → Bool
  | [] => true
  | (_, v) :: fs => claimEligible v && claimEligibleFields fs

def claimEligibleOpt : Option Val → Bool
  | none => true
  | some v => claimEligible v

end

mutual

/-- Conditions under which the JSON round trip provably restores the value:
the specification exclusions, plus finiteness of every `Float64`, strictly
sorted record-field names and flag names (object key order is the sorted
`BTreeMap` order), and record-field names distinct from every discriminator
key. -/
def roundtrippable : Val → Bool
  | Val.bool _ => true
  | Val.s8 _ => false
  | Val.u8 _ => false
  | Val.s16 _ => false
  | Val.u16 _ => false
  | Val.s32 _ => false
  | Val.u32 _ => false
  | Val.s64 n => decide (i64Min ≤ n) && decide (n ≤ i64Max)
  | Val.u64 _ => false
  | Val.float32 _ => false
  | Val.float64 f => f.isFinite
  | Val.char _ => false
  | Val.str _ => true
  | Val.list xs => roundtrippableList xs
  | Val.record fs =>
    decide ((fs.map Prod.fst).Pairwise fun a b => a < b)
      && (fs.map Prod.fst).all (fun k => !reservedKey k)
      && roundtrippableFields fs
  | Val.tuple xs => roundtrippableList xs
  | Val.variant _ payload => roundtrippableOpt payload
  | Val.enumCase _ => true
  | Val.option payload => roundtrippableOpt payload
  | Val.result _ payload => roundtrippableOpt payload
  | Val.flags names => decide (names.Pairwise fun a b => a < b)
  | Val.resource _ => false

def roundtrippableList : List Val → Bool
  | [] => true
  | v :: vs => roundtrippable v && roundtrippableList vs

def roundtrippableFields : List (String × Val) → Bool
  | [] => true
  | (_, v) :: fs => roundtrippable v && roundtrippableFields fs

def roundtrippableOpt : Option Val → Bool
  | none => true
  | some v => roundtrippable v

end

mutual

/-- Whether a value contains no resource handle anywhere. -/
def noResource : Val → Bool
  | Val.resource _ => false
  | Val.list xs => noResourceList xs
  | Val.record fs => noResourceFields fs
  | Val.tuple xs => noResourceList xs
  | Val.variant _ payload => noResourceOpt payload
  | Val.option payload => noResourceOpt payload
  | Val.result _ payload => noResourceOpt payload
  | _ => true

def noResourceList : List Val → Bool
  | [] => true
  | v :: vs => noResource v && noResourceList vs

def noResourceFields : List (String × Val) → Bool
  | [] => true
  | (_, v) :: fs => noResource v && noResourceFields fs

def noResourceOpt : Option Val → Bool
  | none => true
  | some v => noResource v

end

/-! ## Evaluation lemmas for the serializer -/

theorem valList_to_json_eq_map (xs : List Val) :
    valList_to_json xs = xs.map val_to_json := by
  induction xs with
  | nil => simp [valList_to_json]
  | cons v vs ih => simp [valList_to_json, ih]

theorem valFields_to_json_eq_map (fs : List (String × Val)) :
    valFields_to_json fs = fs.map fun p => (p.1, val_to_json p.2) := by
  induction fs with
  | nil => simp [valFields_to_json]
  | cons p fs ih =>
    obtain ⟨k, v⟩ := p
    simp [valFields_to_json, ih]

theorem Json.lookup_eq_none {fields : List (String × Json)} {k : String}
    (h : k ∉ fields.map Prod.fst) : Json.lookup fields k = none := by
  induction fields with
  | nil => simp [Json.lookup]
  | cons hd tl ih =>
    obtain ⟨k₀, v₀⟩ := hd
    simp only [List.map_cons, List.mem_cons] at h
    push_neg at h
    simp only [Json.lookup]
    rw [if_neg (Ne.symm h.1)]
    exact ih h.2

theorem collectFlags_map_true (names : List String) :
    collectFlags (names.map fun n => (n, Json.bool true)) = names := by
  induction names with
  | nil => simp [collectFlags]
  | cons n ns ih => simp [collectFlags] at ih ⊢; exact ih

/-! ## Evaluation lemmas for the parser on discriminator shapes -/

theorem object_to_val_variant_some (tag : String) (j : Json) :
    object_to_val [("__variant", Json.str tag), ("val", j)] =
      match json_to_val j with
      | Except.ok v => Except.ok (Val.variant tag (some v))
      | Except.error e => Except.error e := by
  cases h : json_to_val j with
  | ok v =>
    simp +decide [object_to_val, tryResult, tryVariant, tryOption, trySingleKey,
      Json.lookup, h]
  | error e =>
    simp +decide [object_to_val, tryResult, tryVariant, tryOption, trySingleKey,
      Json.lookup, h]

theorem object_to_val_variant_none (tag : String) :
    object_to_val [("__variant", Json.str tag)] =
      Except.ok (Val.variant tag none) := by
  simp +decide [object_to_val, tryResult, tryVariant, tryOption, trySingleKey,
    Json.lookup]

theorem object_to_val_enum (s : String) :
    object_to_val [("__enum", Json.str s)] = Except.ok (Val.enumCase s) := by
  simp +decide [object_to_val, tryResult, tryVariant, tryOption, trySingleKey,
    Json.lookup]

theorem object_to_val_option_none :
    object_to_val [("__option", Json.str "None")] = Except.ok (Val.option none) := by
  simp +decide [object_to_val, tryResult, tryVariant, tryOption, trySingleKey,
    Json.lookup]

theorem object_to_val_option_some (j : Json) :
    object_to_val [("__option", Json.str "Some"), ("val", j)] =
      match json_to_val j with
      | Except.ok v => Except.ok (Val.option (some v))
      | Except.error e => Except.error e := by
  cases h : json_to_val j with
  | ok v =>
    simp +decide [object_to_val, tryResult, tryVariant, tryOption, trySingleKey,
      Json.lookup, h]
  | error e =>
    simp +decide [object_to_val, tryResult, tryVariant, tryOption, trySingleKey,
      Json.lookup, h]

theorem object_to_val_result_null (isOk : Bool) :
    object_to_val [("__result", Json.str (if isOk then "Ok" else "Err")), ("val", Json.null)]
      = Except.ok (Val.result isOk none) := by
  cases isOk <;>
    simp +decide [object_to_val, tryResult, tryVariant, tryOption, trySingleKey,
      Json.lookup, Json.isNull]

theorem object_to_val_result_payload (isOk : Bool) (j : Json)
    (hj : j.isNull = false) :
    object_to_val [("__result", Json.str (if isOk then "Ok" else "Err")), ("val", j)]
      = match json_to_val j with
        | Except.ok v => Except.ok (Val.result isOk (some v))
        | Except.error e => Except.error e := by
  cases h : json_to_val j with
  | ok v =>
    cases isOk <;>
      simp +decide [object_to_val, tryResult, tryVariant, tryOption, trySingleKey,
        Json.lookup, hj, h, Except.map]
  | error e =>
    cases isOk <;>
      simp +decide [object_to_val, tryResult, tryVariant, tryOption, trySingleKey,
        Json.lookup, hj, h, Except.map]

theorem object_to_val_tuple (items : List Json) :
    object_to_val [("__tuple", Json.arr items)] =
      match jsonList_to_vals items with
      | Except.ok vs => Except.ok (Val.tuple vs)
      | Except.error e => Except.error e := by
  cases h : jsonList_to_vals items with
  | ok vs =>
    simp +decide [object_to_val, tryResult, tryVariant, tryOption, trySingleKey,
      Json.lookup, h]
  | error e =>
    simp +decide [object_to_val, tryResult, tryVariant, tryOption, trySingleKey,
      Json.lookup, h]

theorem object_to_val_flags (flagsObj : List (String × Json)) :
    object_to_val [("__flags", Json.obj flagsObj)] =
      Except.ok (Val.flags (collectFlags flagsObj)) := by
  simp +decide [object_to_val, tryResult, tryVariant, tryOption, trySingleKey,
    Json.lookup]

theorem object_to_val_resource (s : String) :
    object_to_val [("__resource", Json.str s)] =
      Except.error ValError.resourceError := by
  simp +decide [object_to_val, tryResult, tryVariant, tryOption, trySingleKey,
    Json.lookup]

theorem object_to_val_record (fields : List (String × Json))
    (h : ∀ k ∈ fields.map Prod.fst, reservedKey k = false) :
    object_to_val fields =
      match recordFields_to_vals fields with
      | Except.ok vs => Except.ok (Val.record vs)
      | Except.error e => Except.error e := by
  have hnone : ∀ k ∈ reservedKeys, Json.lookup fields k = none := by
    intro k hk
    refine Json.lookup_eq_none fun hmem => ?_
    have hres := h k hmem
    simp only [reservedKeys, List.mem_cons, List.mem_singleton,
      List.not_mem_nil, or_false] at hk
    have hrk : reservedKey k = true := by
      rcases hk with rfl | rfl | rfl | rfl | rfl | rfl | rfl <;> rfl
    rw [hrk] at hres
    exact Bool.noConfusion hres
  have h₁ := hnone "__result" (by simp [reservedKeys])
  have h₂ := hnone "__variant" (by simp [reservedKeys])
  have h₃ := hnone "__option" (by simp [reservedKeys])
  have h₄ := hnone "__tuple" (by simp [reservedKeys])
  have h₅ := hnone "__enum" (by simp [reservedKeys])
  have h₆ := hnone "__resource" (by simp [reservedKeys])
  have h₇ := hnone "__flags" (by simp [reservedKeys])
  rw [object_to_val]
  rw [show tryResult fields = none by rw [tryResult]; rw [h₁]]
  rw [show tryVariant fields = none by rw [tryVariant]; rw [h₂]]
  rw [show tryOption fields = none by rw [tryOption]; rw [h₃]]
  rw [show trySingleKey fields = none by
    rw [trySingleKey]; rw [h₄, h₅, h₆, h₇]; split <;> rfl]

/-! ## Round-trip lemmas -/

theorem as_i64_fromI64 {n : Int} (h₁ : i64Min ≤ n) (h₂ : n ≤ i64Max) :
    (JNum.fromI64 n).as_i64 = some n := by
  by_cases hn : 0 ≤ n
  · simp only [JNum.fromI64, if_pos hn, JNum.as_i64, Int.toNat_of_nonneg hn]
    rw [if_pos h₂]
  · simp [JNum.fromI64, hn, JNum.as_i64]

theorem val_to_json_isNull (v : Val) : (val_to_json v).isNull = false := by
  cases v with
  | float32 f => cases h : JNum.from_f64 f.widened <;> simp [val_to_json, h, Json.isNull]
  | float64 f => cases h : JNum.from_f64 f <;> simp [val_to_json, h, Json.isNull]
  | option payload => cases payload <;> simp [val_to_json, Json.isNull]
  | variant tag payload => cases payload <;> simp [val_to_json, Json.isNull]
  | result isOk payload => cases payload <;> simp [val_to_json, Json.isNull]
  | _ => simp [val_to_json, Json.isNull]

theorem roundtrippableList_mem {xs : List Val} (h : roundtrippableList xs = true) :
    ∀ x ∈ xs, roundtrippable x = true := by
  induction xs with
  | nil => simp
  | cons v vs ih =>
    simp only [roundtrippableList, Bool.and_eq_true] at h
    intro x hx
    rcases List.mem_cons.mp hx with rfl | hx
    · exact h.1
    · exact ih h.2 x hx

theorem roundtrippableFields_mem {fs : List (String × Val)}
    (h : roundtrippableFields fs = true) : ∀ p ∈ fs, roundtrippable p.2 = true := by
  induction fs with
  | nil => simp
  | cons p fs ih =>
    obtain ⟨k, v⟩ := p
    simp only [roundtrippableFields, Bool.and_eq_true] at h
    intro q hq
    rcases List.mem_cons.mp hq with rfl | hq
    · exact h.1
    · exact ih h.2 q hq

theorem jsonList_roundtrip {xs : List Val}
    (ih : ∀ x ∈ xs, json_to_val (val_to_json x) = Except.ok x) :
    jsonList_to_vals (valList_to_json xs) = Except.ok xs := by
  induction xs with
  | nil => simp [valList_to_json, jsonList_to_vals]
  | cons v vs ihl =>
    have h₁ := ih v (by simp)
    have h₂ := ihl fun x hx => ih x (by simp [hx])
    simp [valList_to_json, jsonList_to_vals, h₁, h₂]

theorem recordFields_roundtrip {fs : List (String × Val)}
    (ih : ∀ p ∈ fs, json_to_val (val_to_json p.2) = Except.ok p.2) :
    recordFields_to_vals (fs.map fun p => (p.1, val_to_json p.2)) = Except.ok fs := by
  induction fs with
  | nil => simp [recordFields_to_vals]
  | cons p fs ihl =>
    obtain ⟨k, v⟩ := p
    have h₁ := ih (k, v) (by simp)
    have h₂ := ihl fun q hq => ih q (by simp [hq])
    simp only [List.map_cons] at *
    simp [recordFields_to_vals, h₁, h₂]

/-- Round-trip law for the value bridge: on values meeting the
`roundtrippable` conditions, parsing back the serialized JSON restores the
original value. -/
theorem json_roundtrip : ∀ v : Val, roundtrippable v = true →
    json_to_val (val_to_json v) = Except.ok v := by
  intro v
  induction v using Val.inductionOn with
  | hbool b => intro _; simp [val_to_json, json_to_val]
  | hs8 n => intro h; simp [roundtrippable] at h
  | hu8 n => intro h; simp [roundtrippable] at h
  | hs16 n => intro h; simp [roundtrippable] at h
  | hu16 n => intro h; simp [roundtrippable] at h
  | hs32 n => intro h; simp [roundtrippable] at h
  | hu32 n => intro h; simp [roundtrippable] at h
  | hs64 n =>
    intro h
    simp only [roundtrippable, Bool.and_eq_true, decide_eq_true_eq] at h
    simp [val_to_json, json_to_val, as_i64_fromI64 h.1 h.2]
  | hu64 n => intro h; simp [roundtrippable] at h
  | hf32 f => intro h; simp [roundtrippable] at h
  | hf64 f =>
    intro h
    simp only [roundtrippable] at h
    simp [val_to_json, json_to_val, JNum.from_f64, h, JNum.as_i64, JNum.as_f64]
  | hchar c => intro h; simp [roundtrippable] at h
  | hstr s => intro _; simp [val_to_json, json_to_val]
  | hlist xs ih =>
    intro h
    simp only [roundtrippable] at h
    have hmem := roundtrippableList_mem h
    have := jsonList_roundtrip fun x hx => ih x hx (hmem x hx)
    simp [val_to_json, json_to_val, this]
  | hrecord fs ih =>
    intro h
    simp only [roundtrippable, Bool.and_eq_true, decide_eq_true_eq,
      List.all_eq_true, Bool.not_eq_true'] at h
    obtain ⟨⟨hsorted, hres⟩, hfs⟩ := h
    have hmem := roundtrippableFields_mem hfs
    have hrf := recordFields_roundtrip fun p hp => ih p hp (hmem p hp)
    have hks : KeysSorted (fs.map fun p => (p.1, val_to_json p.2)) := by
      unfold KeysSorted
      rw [List.pairwise_map]
      rw [List.pairwise_map] at hsorted
      exact hsorted
    simp only [val_to_json, valFields_to_json_eq_map]
    rw [Json.buildObj_of_sorted hks]
    rw [show json_to_val (Json.obj (fs.map fun p => (p.1, val_to_json p.2)))
        = object_to_val (fs.map fun p => (p.1, val_to_json p.2)) from by
      simp [json_to_val]]
    rw [object_to_val_record _ (by
      intro k hk
      simp only [List.map_map] at hk
      have h₁ : k ∈ fs.map Prod.fst := by
        simpa using hk
      exact hres k h₁)]
    rw [hrf]
  | htuple xs ih =>
    intro h
    simp only [roundtrippable] at h
    have hmem := roundtrippableList_mem h
    have hjl := jsonList_roundtrip fun x hx => ih x hx (hmem x hx)
    simp only [val_to_json]
    rw [show Json.buildObj [("__tuple", Json.arr (valList_to_json xs))]
        = [("__tuple", Json.arr (valList_to_json xs))] from by
      simp [Json.buildObj, Json.insertSorted]]
    rw [show json_to_val (Json.obj [("__tuple", Json.arr (valList_to_json xs))])
        = object_to_val [("__tuple", Json.arr (valList_to_json xs))] from by
      simp [json_to_val]]
    rw [object_to_val_tuple, hjl]
  | hvariant tag payload ih =>
    intro h
    cases payload with
    | none =>
      simp only [val_to_json]
      rw [show Json.buildObj [("__variant", Json.str tag)]
          = [("__variant", Json.str tag)] from by simp [Json.buildObj, Json.insertSorted]]
      rw [show json_to_val (Json.obj [("__variant", Json.str tag)])
          = object_to_val [("__variant", Json.str tag)] from by simp [json_to_val]]
      rw [object_to_val_variant_none]
    | some v =>
      simp only [roundtrippable, roundtrippableOpt] at h
      have hv := ih v (by simp) h
      simp only [val_to_json]
      rw [show Json.buildObj [("__variant", Json.str tag), ("val", val_to_json v)]
          = [("__variant", Json.str tag), ("val", val_to_json v)] from by
        simp +decide [Json.buildObj, Json.insertSorted]]
      rw [show json_to_val (Json.obj [("__variant", Json.str tag), ("val", val_to_json v)])
          = object_to_val [("__variant", Json.str tag), ("val", val_to_json v)] from by
        simp [json_to_val]]
      rw [object_to_val_variant_some, hv]
  | henum s =>
    intro _
    simp only [val_to_json]
    rw [show Json.buildObj [("__enum", Json.str s)] = [("__enum", Json.str s)] from by
      simp [Json.buildObj, Json.insertSorted]]
    rw [show json_to_val (Json.obj [("__enum", Json.str s)])
        = object_to_val [("__enum", Json.str s)] from by simp [json_to_val]]
    rw [object_to_val_enum]
  | hoption payload ih =>
    intro h
    cases payload with
    | none =>
      simp only [val_to_json]
      rw [show Json.buildObj [("__option", Json.str "None")]
          = [("__option", Json.str "None")] from by simp [Json.buildObj, Json.insertSorted]]
      rw [show json_to_val (Json.obj [("__option", Json.str "None")])
          = object_to_val [("__option", Json.str "None")] from by simp [json_to_val]]
      rw [object_to_val_option_none]
    | some v =>
      simp only [roundtrippable, roundtrippableOpt] at h
      have hv := ih v (by simp) h
      simp only [val_to_json]
      rw [show Json.buildObj [("__option", Json.str "Some"), ("val", val_to_json v)]
          = [("__option", Json.str "Some"), ("val", val_to_json v)] from by
        simp +decide [Json.buildObj, Json.insertSorted]]
      rw [show json_to_val (Json.obj [("__option", Json.str "Some"), ("val", val_to_json v)])
          = object_to_val [("__option", Json.str "Some"), ("val", val_to_json v)] from by
        simp [json_to_val]]
      rw [object_to_val_option_some, hv]
  | hresult isOk payload ih =>
    intro h
    cases payload with
    | none =>
      simp only [val_to_json]
      rw [show Json.buildObj [("__result", Json.str (if isOk then "Ok" else "Err")),
            ("val", Json.null)]
          = [("__result", Json.str (if isOk then "Ok" else "Err")), ("val", Json.null)] from by
        cases isOk <;> simp +decide [Json.buildObj, Json.insertSorted]]
      rw [show json_to_val (Json.obj [("__result", Json.str (if isOk then "Ok" else "Err")),
            ("val", Json.null)])
          = object_to_val [("__result", Json.str (if isOk then "Ok" else "Err")),
            ("val", Json.null)] from by simp [json_to_val]]
      rw [object_to_val_result_null]
    | some v =>
      simp only [roundtrippable, roundtrippableOpt] at h
      have hv := ih v (by simp) h
      simp only [val_to_json]
      rw [show Json.buildObj [("__result", Json.str (if isOk then "Ok" else "Err")),
            ("val", val_to_json v)]
          = [("__result", Json.str (if isOk then "Ok" else "Err")),
             ("val", val_to_json v)] from by
        cases isOk <;> simp +decide [Json.buildObj, Json.insertSorted]]
      rw [show json_to_val (Json.obj [("__result", Json.str (if isOk then "Ok" else "Err")),
            ("val", val_to_json v)])
          = object_to_val [("__result", Json.str (if isOk then "Ok" else "Err")),
            ("val", val_to_json v)] from by simp [json_to_val]]
      rw [object_to_val_result_payload _ _ (val_to_json_isNull v), hv]
  | hflags names =>
    intro h
    simp only [roundtrippable, decide_eq_true_eq] at h
    have hks : KeysSorted (names.map fun n => (n, Json.bool true)) := by
      unfold KeysSorted
      rw [List.pairwise_map]
      exact h
    simp only [val_to_json]
    rw [Json.buildObj_of_sorted hks]
    rw [show Json.buildObj [("__flags", Json.obj (names.map fun n => (n, Json.bool true)))]
        = [("__flags", Json.obj (names.map fun n => (n, Json.bool true)))] from by
      simp [Json.buildObj, Json.insertSorted]]
    rw [show json_to_val (Json.obj
          [("__flags", Json.obj (names.map fun n => (n, Json.bool true)))])
        = object_to_val [("__flags", Json.obj (names.map fun n => (n, Json.bool true)))] from by
      simp [json_to_val]]
    rw [object_to_val_flags, collectFlags_map_true]
  | hresource h₀ => intro h; simp [roundtrippable] at h

/-! ## Injectivity of decimal printing (for the `val0 … valN` keys) -/

/-- Numeric value of a decimal digit character. -/
def decDigitVal (c : Char) : Nat := c.toNat - 48

/-- Value denoted by a big-endian list of decimal digit characters. -/
def digitsVal (l : List Char) : Nat :=
  l.foldl (fun acc c => 10 * acc + decDigitVal c) 0

theorem decDigitVal_digitChar : ∀ m < 10, decDigitVal (Nat.digitChar m) = m := by decide

theorem toDigitsCore_foldl : ∀ (fuel n : Nat) (ds : List Char), n < fuel →
    (Nat.toDigitsCore 10 fuel n ds).foldl (fun acc c => 10 * acc + decDigitVal c) 0
      = ds.foldl (fun acc c => 10 * acc + decDigitVal c) n := by
  intro fuel
  induction fuel with
  | zero => intro n ds h; omega
  | succ fuel ih =>
    intro n ds h
    simp only [Nat.toDigitsCore]
    split
    · rename_i hdiv
      have hn : n < 10 := by
        rcases Nat.lt_or_ge n 10 with h₁ | h₁
        · exact h₁
        · exfalso
          have h₂ : 10 / 10 ≤ n / 10 := Nat.div_le_div_right h₁
          simp at h₂
          omega
      simp only [List.foldl_cons]
      rw [decDigitVal_digitChar (n % 10) (Nat.mod_lt n (by omega))]
      rw [Nat.mul_zero, Nat.zero_add, Nat.mod_eq_of_lt hn]
    · rename_i hdiv
      have hlt : n / 10 < fuel := by
        have h₁ : n / 10 < n := Nat.div_lt_self (by omega) (by omega)
        omega
      rw [ih (n / 10) _ hlt]
      simp only [List.foldl_cons]
      rw [decDigitVal_digitChar (n % 10) (Nat.mod_lt n (by omega))]
      rw [Nat.div_add_mod]

theorem digitsVal_toDigits (n : Nat) : digitsVal (Nat.toDigits 10 n) = n := by
  unfold digitsVal Nat.toDigits
  rw [toDigitsCore_foldl (n + 1) n [] (Nat.lt_succ_self n)]
  rfl

theorem Nat.repr_injective : Function.Injective Nat.repr := by
  intro a b h
  have hd : Nat.toDigits 10 a = Nat.toDigits 10 b := congrArg String.data h
  calc a = digitsVal (Nat.toDigits 10 a) := (digitsVal_toDigits a).symm
    _ = digitsVal (Nat.toDigits 10 b) := by rw [hd]
    _ = b := digitsVal_toDigits b

theorem String.append_left_injective (s : String) :
    Function.Injective fun t => s ++ t := by
  intro a b h
  have hd : s.data ++ a.data = s.data ++ b.data := congrArg String.data h
  have h₁ := List.append_cancel_left hd
  exact congrArg String.mk h₁

theorem valKey_injective : Function.Injective fun i : Nat => "val" ++ toString i := by
  intro a b h
  exact Nat.repr_injective (String.append_left_injective "val" h)

/-! ## Parse success -/

mutual

/-- Conditions under which parsing the serialized JSON of a value cannot fail:
no resource handle anywhere (a serialized resource is rejected by
`object_to_val`), and no record field named like a discriminator key (a record
whose single field is `__resource` with a string value would also be
rejected). -/
def parseSafe : Val → Bool
  | Val.resource _ => false
  | Val.list xs => parseSafeList xs
  | Val.tuple xs => parseSafeList xs
  | Val.record fs =>
    (fs.map Prod.fst).all (fun k => !reservedKey k) && parseSafeFields fs
  | Val.variant _ payload => parseSafeOpt payload
  | Val.option payload => parseSafeOpt payload
  | Val.result _ payload => parseSafeOpt payload
  | _ => true

def parseSafeList : List Val → Bool
  | [] => true
  | v :: vs => parseSafe v && parseSafeList vs

def parseSafeFields : List (String × Val) → Bool
  | [] => true
  | (_, v) :: fs => parseSafe v && parseSafeFields fs

def parseSafeOpt : Option Val → Bool
  | none => true
  | some v => parseSafe v

end

theorem parseSafeList_mem {xs : List Val} (h : parseSafeList xs = true) :
    ∀ x ∈ xs, parseSafe x = true := by
  induction xs with
  | nil => simp
  | cons v vs ih =>
    simp only [parseSafeList, Bool.and_eq_true] at h
    intro x hx
    rcases List.mem_cons.mp hx with rfl | hx
    · exact h.1
    · exact ih h.2 x hx

theorem parseSafeFields_mem {fs : List (String × Val)} (h : parseSafeFields fs = true) :
    ∀ p ∈ fs, parseSafe p.2 = true := by
  induction fs with
  | nil => simp
  | cons p fs ih =>
    obtain ⟨k, v⟩ := p
    simp only [parseSafeFields, Bool.and_eq_true] at h
    intro q hq
    rcases List.mem_cons.mp hq with rfl | hq
    · exact h.1
    · exact ih h.2 q hq

theorem json_num_ok (m : JNum) : ∃ w, json_to_val (Json.num m) = Except.ok w := by
  cases m with
  | posInt n =>
    by_cases h : (n : Int) ≤ i64Max
    · exact ⟨Val.s64 n, by simp [json_to_val, JNum.as_i64, h]⟩
    · exact ⟨Val.float64 (natToF64 n), by simp [json_to_val, JNum.as_i64, h, JNum.as_f64]⟩
  | negInt n => exact ⟨Val.s64 n, by simp [json_to_val, JNum.as_i64]⟩
  | float f => exact ⟨Val.float64 f, by simp [json_to_val, JNum.as_i64, JNum.as_f64]⟩

theorem jsonList_ok (js : List Json) (h : ∀ j ∈ js, ∃ w, json_to_val j = Except.ok w) :
    ∃ ws, jsonList_to_vals js = Except.ok ws ∧ ws.length = js.length := by
  induction js with
  | nil => exact ⟨[], by simp [jsonList_to_vals]⟩
  | cons j js ih =>
    obtain ⟨w, hw⟩ := h j (by simp)
    obtain ⟨ws, hws, hlen⟩ := ih fun j hj => h j (by simp [hj])
    exact ⟨w :: ws, by simp [jsonList_to_vals, hw, hws], by simp [hlen]⟩

theorem recordFields_ok (fields : List (String × Json))
    (h : ∀ kv ∈ fields, ∃ w, json_to_val kv.2 = Except.ok w) :
    ∃ gs, recordFields_to_vals fields = Except.ok gs := by
  induction fields with
  | nil => exact ⟨[], by simp [recordFields_to_vals]⟩
  | cons kv fields ih =>
    obtain ⟨k, j⟩ := kv
    obtain ⟨w, hw⟩ := h (k, j) (by simp)
    obtain ⟨gs, hgs⟩ := ih fun q hq => h q (by simp [hq])
    exact ⟨(k, w) :: gs, by simp [recordFields_to_vals, hw, hgs]⟩

/-- Parse success: serializing any resource-free, discriminator-clean value
produces JSON that `json_to_val` accepts (with some value, not necessarily the
original). -/
theorem parse_succeeds : ∀ v : Val, parseSafe v = true →
    ∃ w, json_to_val (val_to_json v) = Except.ok w := by
  intro v
  induction v using Val.inductionOn with
  | hbool b => intro _; exact ⟨Val.bool b, by simp [val_to_json, json_to_val]⟩
  | hs8 n => intro _; simpa [val_to_json] using json_num_ok (JNum.fromI64 n)
  | hu8 n => intro _; simpa [val_to_json] using json_num_ok (JNum.posInt n)
  | hs16 n => intro _; simpa [val_to_json] using json_num_ok (JNum.fromI64 n)
  | hu16 n => intro _; simpa [val_to_json] using json_num_ok (JNum.posInt n)
  | hs32 n => intro _; simpa [val_to_json] using json_num_ok (JNum.fromI64 n)
  | hu32 n => intro _; simpa [val_to_json] using json_num_ok (JNum.posInt n)
  | hs64 n => intro _; simpa [val_to_json] using json_num_ok (JNum.fromI64 n)
  | hu64 n => intro _; simpa [val_to_json] using json_num_ok (JNum.posInt n)
  | hf32 f =>
    intro _
    by_cases h : f.widened.isFinite
    · have h₁ : JNum.from_f64 f.widened = some (JNum.float f.widened) := by
        simp [JNum.from_f64, h]
      have := json_num_ok (JNum.float f.widened)
      simpa [val_to_json, h₁] using this
    · have h₁ : JNum.from_f64 f.widened = none := by
        simp [JNum.from_f64, h]
      exact ⟨Val.str f.display, by simp [val_to_json, h₁, json_to_val]⟩
  | hf64 f =>
    intro _
    by_cases h : f.isFinite
    · have h₁ : JNum.from_f64 f = some (JNum.float f) := by simp [JNum.from_f64, h]
      have := json_num_ok (JNum.float f)
      simpa [val_to_json, h₁] using this
    · have h₁ : JNum.from_f64 f = none := by simp [JNum.from_f64, h]
      exact ⟨Val.str f.display, by simp [val_to_json, h₁, json_to_val]⟩
  | hchar c => intro _; exact ⟨Val.str (String.singleton c), by simp [val_to_json, json_to_val]⟩
  | hstr s => intro _; exact ⟨Val.str s, by simp [val_to_json, json_to_val]⟩
  | hlist xs ih =>
    intro h
    simp only [parseSafe] at h
    have hmem := parseSafeList_mem h
    obtain ⟨ws, hws, _⟩ := jsonList_ok (valList_to_json xs)
      (fun j hj => by
        rw [valList_to_json_eq_map] at hj
        obtain ⟨x, hx, rfl⟩ := List.mem_map.mp hj
        exact ih x hx (hmem x hx))
    exact ⟨Val.list ws, by simp [val_to_json, json_to_val, hws]⟩
  | hrecord fs ih =>
    intro h
    simp only [parseSafe, Bool.and_eq_true, List.all_eq_true, Bool.not_eq_true'] at h
    obtain ⟨hres, hfs⟩ := h
    have hmem := parseSafeFields_mem hfs
    have hkeys : ∀ k ∈ (Json.buildObj (fs.map fun p => (p.1, val_to_json p.2))).map
        Prod.fst, reservedKey k = false := by
      intro k hk
      obtain ⟨p, hp, rfl⟩ := List.mem_map.mp hk
      have hp₁ := Json.mem_buildObj hp
      obtain ⟨q, hq, rfl⟩ := List.mem_map.mp hp₁
      exact hres q.1 (List.mem_map.mpr ⟨q, hq, rfl⟩)
    obtain ⟨gs, hgs⟩ := recordFields_ok
      (Json.buildObj (fs.map fun p => (p.1, val_to_json p.2)))
      (fun kv hkv => by
        have hkv₁ := Json.mem_buildObj hkv
        obtain ⟨q, hq, rfl⟩ := List.mem_map.mp hkv₁
        exact ih q hq (hmem q hq))
    refine ⟨Val.record gs, ?_⟩
    simp only [val_to_json, valFields_to_json_eq_map]
    rw [show json_to_val (Json.obj (Json.buildObj (fs.map fun p => (p.1, val_to_json p.2))))
        = object_to_val (Json.buildObj (fs.map fun p => (p.1, val_to_json p.2))) from by
      simp [json_to_val]]
    rw [object_to_val_record _ hkeys, hgs]
  | htuple xs ih =>
    intro h
    simp only [parseSafe] at h
    have hmem := parseSafeList_mem h
    obtain ⟨ws, hws, _⟩ := jsonList_ok (valList_to_json xs)
      (fun j hj => by
        rw [valList_to_json_eq_map] at hj
        obtain ⟨x, hx, rfl⟩ := List.mem_map.mp hj
        exact ih x hx (hmem x hx))
    refine ⟨Val.tuple ws, ?_⟩
    simp only [val_to_json]
    rw [show Json.buildObj [("__tuple", Json.arr (valList_to_json xs))]
        = [("__tuple", Json.arr (valList_to_json xs))] from by
      simp [Json.buildObj, Json.insertSorted]]
    rw [show json_to_val (Json.obj [("__tuple", Json.arr (valList_to_json xs))])
        = object_to_val [("__tuple", Json.arr (valList_to_json xs))] from by
      simp [json_to_val]]
    rw [object_to_val_tuple, hws]
  | hvariant tag payload ih =>
    intro h
    cases payload with
    | none =>
      refine ⟨Val.variant tag none, ?_⟩
      simp only [val_to_json]
      rw [show Json.buildObj [("__variant", Json.str tag)]
          = [("__variant", Json.str tag)] from by simp [Json.buildObj, Json.insertSorted]]
      rw [show json_to_val (Json.obj [("__variant", Json.str tag)])
          = object_to_val [("__variant", Json.str tag)] from by simp [json_to_val]]
      rw [object_to_val_variant_none]
    | some v =>
      simp only [parseSafe, parseSafeOpt] at h
      obtain ⟨w, hw⟩ := ih v (by simp) h
      refine ⟨Val.variant tag (some w), ?_⟩
      simp only [val_to_json]
      rw [show Json.buildObj [("__variant", Json.str tag), ("val", val_to_json v)]
          = [("__variant", Json.str tag), ("val", val_to_json v)] from by
        simp +decide [Json.buildObj, Json.insertSorted]]
      rw [show json_to_val (Json.obj [("__variant", Json.str tag), ("val", val_to_json v)])
          = object_to_val [("__variant", Json.str tag), ("val", val_to_json v)] from by
        simp [json_to_val]]
      rw [object_to_val_variant_some, hw]
  | henum s =>
    intro _
    refine ⟨Val.enumCase s, ?_⟩
    simp only [val_to_json]
    rw [show Json.buildObj [("__enum", Json.str s)] = [("__enum", Json.str s)] from by
      simp [Json.buildObj, Json.insertSorted]]
    rw [show json_to_val (Json.obj [("__enum", Json.str s)])
        = object_to_val [("__enum", Json.str s)] from by simp [json_to_val]]
    rw [object_to_val_enum]
  | hoption payload ih =>
    intro h
    cases payload with
    | none =>
      refine ⟨Val.option none, ?_⟩
      simp only [val_to_json]
      rw [show Json.buildObj [("__option", Json.str "None")]
          = [("__option", Json.str "None")] from by simp [Json.buildObj, Json.insertSorted]]
      rw [show json_to_val (Json.obj [("__option", Json.str "None")])
          = object_to_val [("__option", Json.str "None")] from by simp [json_to_val]]
      rw [object_to_val_option_none]
    | some v =>
      simp only [parseSafe, parseSafeOpt] at h
      obtain ⟨w, hw⟩ := ih v (by simp) h
      refine ⟨Val.option (some w), ?_⟩
      simp only [val_to_json]
      rw [show Json.buildObj [("__option", Json.str "Some"), ("val", val_to_json v)]
          = [("__option", Json.str "Some"), ("val", val_to_json v)] from by
        simp +decide [Json.buildObj, Json.insertSorted]]
      rw [show json_to_val (Json.obj [("__option", Json.str "Some"), ("val", val_to_json v)])
          = object_to_val [("__option", Json.str "Some"), ("val", val_to_json v)] from by
        simp [json_to_val]]
      rw [object_to_val_option_some, hw]
  | hresult isOk payload ih =>
    intro h
    cases payload with
    | none =>
      refine ⟨Val.result isOk none, ?_⟩
      simp only [val_to_json]
      rw [show Json.buildObj [("__result", Json.str (if isOk then "Ok" else "Err")),
            ("val", Json.null)]
          = [("__result", Json.str (if isOk then "Ok" else "Err")), ("val", Json.null)] from by
        cases isOk <;> simp +decide [Json.buildObj, Json.insertSorted]]
      rw [show json_to_val (Json.obj [("__result", Json.str (if isOk then "Ok" else "Err")),
            ("val", Json.null)])
          = object_to_val [("__result", Json.str (if isOk then "Ok" else "Err")),
            ("val", Json.null)] from by simp [json_to_val]]
      rw [object_to_val_result_null]
    | some v =>
      simp only [parseSafe, parseSafeOpt] at h
      obtain ⟨w, hw⟩ := ih v (by simp) h
      refine ⟨Val.result isOk (some w), ?_⟩
      simp only [val_to_json]
      rw [show Json.buildObj [("__result", Json.str (if isOk then "Ok" else "Err")),
            ("val", val_to_json v)]
          = [("__result", Json.str (if isOk then "Ok" else "Err")),
             ("val", val_to_json v)] from by
        cases isOk <;> simp +decide [Json.buildObj, Json.insertSorted]]
      rw [show json_to_val (Json.obj [("__result", Json.str (if isOk then "Ok" else "Err")),
            ("val", val_to_json v)])
          = object_to_val [("__result", Json.str (if isOk then "Ok" else "Err")),
            ("val", val_to_json v)] from by simp [json_to_val]]
      rw [object_to_val_result_payload _ _ (val_to_json_isNull v), hw]
  | hflags names =>
    intro _
    refine ⟨Val.flags (collectFlags (Json.buildObj (names.map fun n => (n, Json.bool true)))), ?_⟩
    simp only [val_to_json]
    rw [show Json.buildObj
          [("__flags", Json.obj (Json.buildObj (names.map fun n => (n, Json.bool true))))]
        = [("__flags", Json.obj (Json.buildObj (names.map fun n => (n, Json.bool true))))] from by
      simp [Json.buildObj, Json.insertSorted]]
    rw [show json_to_val (Json.obj
          [("__flags", Json.obj (Json.buildObj (names.map fun n => (n, Json.bool true))))])
        = object_to_val
          [("__flags", Json.obj (Json.buildObj (names.map fun n => (n, Json.bool true))))] from by
      simp [json_to_val]]
    rw [object_to_val_flags]
  | hresource h₀ => intro h; simp [parseSafe] at h

/-! ## Claims C1 and C2 -/

/-- C1 (amended): for every typed value meeting the specification exclusions
(no Char, no Float32, no resource, no non-S64 integer) and additionally having
every `Float64` finite, every record with strictly sorted field names none of
which is a discriminator key, and every flags value with strictly sorted flag
names, converting to JSON with `val_to_json` and parsing back with
`json_to_val` succeeds and restores the value. -/
theorem C1_roundtrip_amended (v : Val) (h : roundtrippable v = true) :
    json_to_val (val_to_json v) = Except.ok v :=
  json_roundtrip v h

/-- C1 counterexample: the record value with the single field `__enum`
(containing a string) satisfies every exclusion of the claim — it contains no
Char, no Float32, no resource handle and no non-S64 integer — yet its JSON
form parses back as an enum case, not as the original record. -/
theorem C1_roundtrip_counterexample :
    claimEligible (Val.record [("__enum", Val.str "x")]) = true ∧
    json_to_val (val_to_json (Val.record [("__enum", Val.str "x")]))
      ≠ Except.ok (Val.record [("__enum", Val.str "x")]) := by
  constructor
  · simp [claimEligible, claimEligibleFields]
  · rw [show val_to_json (Val.record [("__enum", Val.str "x")])
        = Json.obj [("__enum", Json.str "x")] from by
      simp [val_to_json, valFields_to_json, Json.buildObj, Json.insertSorted]]
    rw [show json_to_val (Json.obj [("__enum", Json.str "x")])
        = object_to_val [("__enum", Json.str "x")] from by simp [json_to_val]]
    rw [object_to_val_enum]
    simp

/-- C1 witness: the amended round-trip law applied to a concrete record. -/
theorem C1_roundtrip_amended_witness :
    roundtrippable (Val.record [("a", Val.bool true), ("b", Val.s64 5)]) = true ∧
    json_to_val (val_to_json (Val.record [("a", Val.bool true), ("b", Val.s64 5)]))
      = Except.ok (Val.record [("a", Val.bool true), ("b", Val.s64 5)]) := by
  have h : roundtrippable (Val.record [("a", Val.bool true), ("b", Val.s64 5)]) = true := by
    simp +decide [roundtrippable, roundtrippableFields, reservedKey, reservedKeys,
      i64Min, i64Max]
  exact ⟨h, C1_roundtrip_amended _ h⟩

/-- C2 (amended): for every list of at least two typed values, none of which
contains a resource handle or a record field named like a discriminator key,
`json_to_vals (vals_to_json vs)` succeeds and returns a list with the same
number of elements as `vs`.  (For zero values `vals_to_json` produces `null`,
which `json_to_vals` rejects; for one value whose JSON form is an object, the
object is re-read as a bundle whose length is its key count.) -/
theorem C2_length_amended (vs : List Val) (hlen : 2 ≤ vs.length)
    (hsafe : ∀ v ∈ vs, parseSafe v = true) :
    ∃ ws, json_to_vals (vals_to_json vs) = Except.ok ws ∧ ws.length = vs.length := by
  match vs, hlen with
  | v₁ :: v₂ :: rest, _ =>
    set l := v₁ :: v₂ :: rest with hl
    have hv : vals_to_json l
        = Json.obj (Json.buildObj (l.enum.map fun p => ("val" ++ toString p.1, val_to_json p.2))) := by
      simp [vals_to_json, hl]
    set pairs := l.enum.map fun p => ("val" ++ toString p.1, val_to_json p.2) with hpairs
    have hnd : (pairs.map Prod.fst).Nodup := by
      have h₁ : pairs.map Prod.fst
          = (l.enum.map Prod.fst).map fun i => "val" ++ toString i := by
        rw [hpairs, List.map_map, List.map_map]
        rfl
      rw [h₁, List.enum_map_fst]
      exact (List.nodup_range _).map valKey_injective
    have hperm := Json.buildObj_perm_of_nodup hnd
    have hok : ∀ j ∈ (Json.buildObj pairs).map Prod.snd, ∃ w, json_to_val j = Except.ok w := by
      intro j hj
      obtain ⟨p, hp, rfl⟩ := List.mem_map.mp hj
      have hp₁ := Json.mem_buildObj hp
      obtain ⟨q, hq, rfl⟩ := List.mem_map.mp hp₁
      have hq₂ : q.2 ∈ l := by
        have := List.of_mem_zip (by
          rw [← List.enum_eq_zip_range]
          exact (show (q.1, q.2) ∈ l.enum from hq))
        exact this.2
      exact parse_succeeds q.2 (hsafe q.2 hq₂)
    obtain ⟨ws, hws, hwlen⟩ := jsonList_ok _ hok
    refine ⟨ws, ?_, ?_⟩
    · rw [hv]
      simpa [json_to_vals] using hws
    · rw [hwlen]
      have h₂ : (Json.buildObj pairs).length = pairs.length := hperm.length_eq
      simp only [List.length_map, h₂, hpairs]
      simp [List.length_map, List.enum_length]

/-- C2 counterexample: for the empty list of values `vals_to_json` produces
JSON `null`, which `json_to_vals` rejects as a stand-alone null instead of
succeeding with an empty list. -/
theorem C2_length_counterexample :
    json_to_vals (vals_to_json ([] : List Val))
      = Except.error (ValError.shapeError "null" "stand-alone null not allowed") := by
  simp [vals_to_json, json_to_vals, json_to_val]

/-- C2 witness: the amended length law applied to a concrete two-value list. -/
theorem C2_length_amended_witness :
    (2 ≤ [Val.bool true, Val.s64 1].length
      ∧ ∀ v ∈ [Val.bool true, Val.s64 1], parseSafe v = true)
    ∧ ∃ ws, json_to_vals (vals_to_json [Val.bool true, Val.s64 1]) = Except.ok ws
        ∧ ws.length = [Val.bool true, Val.s64 1].length := by
  have h₁ : 2 ≤ [Val.bool true, Val.s64 1].length := by simp
  have h₂ : ∀ v ∈ [Val.bool true, Val.s64 1], parseSafe v = true := by
    intro v hv
    rcases List.mem_cons.mp hv with rfl | hv
    · simp [parseSafe]
    · rcases List.mem_cons.mp hv with rfl | hv
      · simp [parseSafe]
      · simp at hv
  exact ⟨⟨h₁, h₂⟩, C2_length_amended _ h₁ h₂⟩

/-! ## Component registry (ComponentRegistry in weld / wassette) -/

/-- Model of the `ToolInfo` struct: owning component and tool schema. -/
structure ToolInfo where
  component_id : String
  schema : Json

/-- Association-list model of a `HashMap`; the claims only observe maps
through `lookup`, so list order is irrelevant. -/
def alookup {α : Type} : List (String × α) → String → Option α
  | [], _ => none
  | (k, v) :: rest, key => if k = key then some v else alookup rest key

/-- Model of `HashMap::insert` (replace or add). -/
def ainsert {α : Type} (l : List (String × α)) (k : String) (v : α) :
    List (String × α) :=
  (k, v) :: l.filter fun p => p.1 ≠ k

/-- Model of `HashMap::remove`. -/
def aremove {α : Type} (l : List (String × α)) (k : String) : List (String × α) :=
  l.filter fun p => p.1 ≠ k

/-- Model of the `ComponentRegistry` struct: the tool index and the reverse
index from component ids to contributed tool names. -/
structure ComponentRegistry where
  tool_map : List (String × List ToolInfo)
  component_map : List (String × List String)

/-- Empty registry (`ComponentRegistry::new`). -/
def ComponentRegistry.empty : ComponentRegistry :=
  { tool_map := [], component_map := [] }

/-- Model of `self.tool_map.entry(name).or_default().push(tool_info)`. -/
def pushTool (tm : List (String × List ToolInfo)) (name : String) (info : ToolInfo) :
    List (String × List ToolInfo) :=
  match alookup tm name with
  | some infos => ainsert tm name (infos ++ [info])
  | none => ainsert tm name [info]

/-- Model of the loop body of `register_component`: walk the schema\x27s tools,
pushing each tool into the tool index and collecting the contributed names.
The Boolean is false when some tool\x27s `name` is not a string, in which case
the Rust loop has already mutated the tool index for the earlier tools and
returns the error without touching the reverse index. -/
def registerTools (tm : List (String × List ToolInfo)) (cid : String) :
    List Json → List (String × List ToolInfo) × List String × Bool
  | [] => (tm, [], true)
  | tool :: rest =>
    match tool.index "name" with
    | Json.str name =>
      let r := registerTools (pushTool tm name { component_id := cid, schema := tool }) cid rest
      (r.1, name :: r.2.1, r.2.2)
    | _ => (tm, [], false)

/-- Model of `ComponentRegistry::register_component`.  Returns the mutated
registry together with the `Result`: failure when the schema has no `tools`
array or some tool name is not a string; on the latter the partial tool-index
mutation persists, exactly as with the Rust `&mut self` loop. -/
def register_component (reg : ComponentRegistry) (cid : String) (schema : Json) :
    ComponentRegistry × Except String Unit :=
  match schema.index "tools" with
  | Json.arr tools =>
    let r := registerTools reg.tool_map cid tools
    if r.2.2 then
      ({ tool_map := r.1, component_map := ainsert reg.component_map cid r.2.1 },
       Except.ok ())
    else
      ({ reg with tool_map := r.1 }, Except.error "Tool name is not a string")
  | _ => (reg, Except.error "Schema does not contain tools array")

/-- Model of the per-name cleanup loop of `unregister_component`: for each
contributed tool name, keep only the other components\x27 entries in that
bucket, dropping the bucket when it empties. -/
def unregTools (cid : String) : List String → List (String × List ToolInfo) →
    List (String × List ToolInfo)
  | [], tm => tm
  | name :: names, tm =>
    unregTools cid names
      (match alookup tm name with
       | none => tm
       | some infos =>
         let kept := infos.filter fun i => i.component_id ≠ cid
         if kept.isEmpty then aremove tm name else ainsert tm name kept)

/-- Model of `ComponentRegistry::unregister_component`: drop the reverse-index
entry, then filter the component out of each contributed bucket, removing
now-empty buckets. -/
def unregister_component (reg : ComponentRegistry) (cid : String) : ComponentRegistry :=
  match alookup reg.component_map cid with
  | none => reg
  | some names =>
    { component_map := aremove reg.component_map cid,
      tool_map := unregTools cid names reg.tool_map }

/-- Error message of the ambiguous-tool failure, exactly as formatted by
`get_component_id_for_tool`. -/
def multiToolError (tool_name : String) (infos : List ToolInfo) : String :=
  "Multiple components found for tool \x27" ++ tool_name ++ "\x27: "
    ++ String.intercalate ", " (infos.map fun i => i.component_id)

/-- Model of `LifecycleManager::get_component_id_for_tool`.  The value `none`
marks the case in which the Rust code would index `tool_infos[0]` on an empty
bucket and panic; theorem `C10_registry_invariant` shows it is unreachable
from registry operations. -/
def get_component_id_for_tool (reg : ComponentRegistry) (tool_name : String) :
    Option (Except String String) :=
  match alookup reg.tool_map tool_name with
  | none => some (Except.error "Tool not found")
  | some infos =>
    if infos.length > 1 then some (Except.error (multiToolError tool_name infos))
    else
      match infos with
      | [] => none
      | info :: _ => some (Except.ok info.component_id)

/-! ## Registry lemmas -/

theorem alookup_filter_ne {a : Type} :
    ∀ (l : List (String × a)) {k k₁ : String}, k₁ ≠ k →
      alookup (l.filter fun p => p.1 ≠ k) k₁ = alookup l k₁ := by
  intro l
  induction l with
  | nil => intro k k₁ h; simp [alookup]
  | cons hd tl ih =>
    intro k k₁ hne
    obtain ⟨k₀, v₀⟩ := hd
    by_cases h : k₀ = k
    · have h₁ : (((k₀, v₀) :: tl).filter fun p => p.1 ≠ k)
          = tl.filter fun p => p.1 ≠ k := by simp [h]
      rw [h₁, ih hne]
      simp only [alookup]
      rw [if_neg (by rintro rfl; exact hne h)]
    · have h₁ : (((k₀, v₀) :: tl).filter fun p => p.1 ≠ k)
          = (k₀, v₀) :: (tl.filter fun p => p.1 ≠ k) := by simp [h]
      rw [h₁]
      simp only [alookup]
      by_cases h₂ : k₀ = k₁
      · rw [if_pos h₂, if_pos h₂]
      · rw [if_neg h₂, if_neg h₂]
        exact ih hne

theorem alookup_filter_self {a : Type} :
    ∀ (l : List (String × a)) (k : String),
      alookup (l.filter fun p => p.1 ≠ k) k = none := by
  intro l
  induction l with
  | nil => intro k; simp [alookup]
  | cons hd tl ih =>
    intro k
    obtain ⟨k₀, v₀⟩ := hd
    by_cases h : k₀ = k
    · have h₁ : (((k₀, v₀) :: tl).filter fun p => p.1 ≠ k)
          = tl.filter fun p => p.1 ≠ k := by simp [h]
      rw [h₁]
      exact ih k
    · have h₁ : (((k₀, v₀) :: tl).filter fun p => p.1 ≠ k)
          = (k₀, v₀) :: (tl.filter fun p => p.1 ≠ k) := by simp [h]
      rw [h₁]
      simp only [alookup]
      rw [if_neg h]
      exact ih k

theorem alookup_ainsert_self {a : Type} (l : List (String × a)) (k : String) (v : a) :
    alookup (ainsert l k v) k = some v := by
  simp [ainsert, alookup]

theorem alookup_ainsert_ne {a : Type} (l : List (String × a)) {k k₁ : String} (v : a)
    (hne : k₁ ≠ k) : alookup (ainsert l k v) k₁ = alookup l k₁ := by
  simp only [ainsert, alookup]
  rw [if_neg (Ne.symm hne)]
  exact alookup_filter_ne l hne

theorem alookup_aremove_self {a : Type} (l : List (String × a)) (k : String) :
    alookup (aremove l k) k = none :=
  alookup_filter_self l k

theorem alookup_aremove_ne {a : Type} (l : List (String × a)) {k k₁ : String}
    (hne : k₁ ≠ k) : alookup (aremove l k) k₁ = alookup l k₁ :=
  alookup_filter_ne l hne

theorem alookup_pushTool_self (tm : List (String × List ToolInfo)) (name : String)
    (info : ToolInfo) :
    alookup (pushTool tm name info) name = some ((alookup tm name).getD [] ++ [info]) := by
  unfold pushTool
  cases h : alookup tm name <;> simp [h, alookup_ainsert_self]

theorem alookup_pushTool_ne (tm : List (String × List ToolInfo)) {name n : String}
    (info : ToolInfo) (hne : n ≠ name) :
    alookup (pushTool tm name info) n = alookup tm n := by
  unfold pushTool
  cases h : alookup tm name <;> simp [alookup_ainsert_ne _ _ hne]

/-- Where the entries of a bucket after `registerTools` come from: either the
entry was already in the input index at the same name, or the name is among
the contributed names and the entry belongs to the component being
registered. -/
theorem registerTools_entries (cid : String) :
    ∀ (tools : List Json) (tm : List (String × List ToolInfo)) (n : String)
      (infosOut : List ToolInfo),
      alookup (registerTools tm cid tools).1 n = some infosOut →
      ∀ x ∈ infosOut,
        (∃ infos, alookup tm n = some infos ∧ x ∈ infos)
          ∨ (n ∈ (registerTools tm cid tools).2.1 ∧ x.component_id = cid) := by
  intro tools
  induction tools with
  | nil =>
    intro tm n infosOut h x hx
    exact Or.inl ⟨infosOut, h, hx⟩
  | cons tool rest ih =>
    intro tm n infosOut h x hx
    simp only [registerTools] at h ⊢
    cases htool : tool.index "name"
    case str nm =>
      rw [htool] at h
      dsimp only at h ⊢
      rcases ih (pushTool tm nm ⟨cid, tool⟩) n infosOut h x hx with h₁ | h₁
      · obtain ⟨infos, hinf, hxin⟩ := h₁
        by_cases hn : n = nm
        · subst hn
          rw [alookup_pushTool_self] at hinf
          injection hinf with hEq
          subst hEq
          rcases List.mem_append.mp hxin with h₂ | h₂
          · cases hlk : alookup tm n with
            | none => rw [hlk] at h₂; simp at h₂
            | some infos₀ =>
              rw [hlk] at h₂
              exact Or.inl ⟨infos₀, rfl, by simpa using h₂⟩
          · simp only [List.mem_singleton] at h₂
            subst h₂
            exact Or.inr ⟨by simp, rfl⟩
        · rw [alookup_pushTool_ne _ _ hn] at hinf
          exact Or.inl ⟨infos, hinf, hxin⟩
      · exact Or.inr ⟨by simp [h₁.1], h₁.2⟩
    all_goals
      (rw [htool] at h
       dsimp only at h ⊢
       exact Or.inl ⟨infosOut, h, hx⟩)

/-- Non-emptiness of every bucket of a tool index. -/
def BucketsNonempty (tm : List (String × List ToolInfo)) : Prop :=
  ∀ n infos, alookup tm n = some infos → infos ≠ []

/-- Every name recorded in the reverse index has a bucket containing an entry
of the recording component. -/
def ReverseCovered (reg : ComponentRegistry) : Prop :=
  ∀ cid names, alookup reg.component_map cid = some names →
    ∀ n ∈ names, ∃ infos, alookup reg.tool_map n = some infos
      ∧ ∃ x ∈ infos, x.component_id = cid

/-- Every bucket entry is recorded in the reverse index of its component (the
converse direction, used for the unregister-clears-everything lemmas). -/
def ToolCovered (reg : ComponentRegistry) : Prop :=
  ∀ n infos, alookup reg.tool_map n = some infos →
    ∀ x ∈ infos, ∃ names, alookup reg.component_map x.component_id = some names
      ∧ n ∈ names

/-- No bucket of the tool index holds an entry of the given component. -/
def NoCompEntries (tm : List (String × List ToolInfo)) (cid : String) : Prop :=
  ∀ n infos, alookup tm n = some infos → ∀ x ∈ infos, x.component_id ≠ cid

theorem registerTools_nonempty (cid : String) :
    ∀ (tools : List Json) (tm : List (String × List ToolInfo)),
      BucketsNonempty tm → BucketsNonempty (registerTools tm cid tools).1 := by
  intro tools
  induction tools with
  | nil => intro tm h; exact h
  | cons tool rest ih =>
    intro tm h
    simp only [registerTools]
    cases htool : tool.index "name"
    case str nm =>
      dsimp only
      refine ih (pushTool tm nm ⟨cid, tool⟩) ?_
      intro n infos hinf
      by_cases hn : n = nm
      · subst hn
        rw [alookup_pushTool_self] at hinf
        cases hinf
        simp
      · rw [alookup_pushTool_ne _ _ hn] at hinf
        exact h n infos hinf
    all_goals (dsimp only; exact h)

theorem registerTools_preserves (cid : String) :
    ∀ (tools : List Json) (tm : List (String × List ToolInfo)) (n : String)
      (infos : List ToolInfo) (x : ToolInfo),
      alookup tm n = some infos → x ∈ infos →
      ∃ infosOut, alookup (registerTools tm cid tools).1 n = some infosOut
        ∧ x ∈ infosOut := by
  intro tools
  induction tools with
  | nil => intro tm n infos x h hx; exact ⟨infos, h, hx⟩
  | cons tool rest ih =>
    intro tm n infos x h hx
    simp only [registerTools]
    cases htool : tool.index "name"
    case str nm =>
      dsimp only
      by_cases hn : n = nm
      · subst hn
        refine ih (pushTool tm n ⟨cid, tool⟩) n ((alookup tm n).getD [] ++ [⟨cid, tool⟩]) x
          (alookup_pushTool_self tm n _) ?_
        rw [h]
        simp [hx]
      · exact ih (pushTool tm nm ⟨cid, tool⟩) n infos x
          (by rw [alookup_pushTool_ne _ _ hn]; exact h) hx
    all_goals (dsimp only; exact ⟨infos, h, hx⟩)

theorem registerTools_names (cid : String) :
    ∀ (tools : List Json) (tm : List (String × List ToolInfo)),
      ∀ n ∈ (registerTools tm cid tools).2.1,
        ∃ infos, alookup (registerTools tm cid tools).1 n = some infos
          ∧ ∃ x ∈ infos, x.component_id = cid := by
  intro tools
  induction tools with
  | nil => intro tm n hn; simp [registerTools] at hn
  | cons tool rest ih =>
    intro tm n hn
    simp only [registerTools] at hn ⊢
    cases htool : tool.index "name"
    case str nm =>
      rw [htool] at hn
      dsimp only at hn ⊢
      rcases List.mem_cons.mp hn with rfl | hn
      · obtain ⟨infosOut, hout, hxout⟩ := registerTools_preserves cid rest
          (pushTool tm n ⟨cid, tool⟩) n ((alookup tm n).getD [] ++ [⟨cid, tool⟩])
          ⟨cid, tool⟩ (alookup_pushTool_self tm n _) (by simp)
        exact ⟨infosOut, hout, ⟨cid, tool⟩, hxout, rfl⟩
      · exact ih (pushTool tm nm ⟨cid, tool⟩) n hn
    all_goals
      (rw [htool] at hn
       dsimp only at hn
       simp at hn)

theorem unregTools_entries (cid : String) :
    ∀ (names : List String) (tm : List (String × List ToolInfo)) (n : String)
      (infosOut : List ToolInfo),
      alookup (unregTools cid names tm) n = some infosOut →
      ∀ x ∈ infosOut,
        (∃ infos, alookup tm n = some infos ∧ x ∈ infos)
          ∧ (n ∈ names → x.component_id ≠ cid) := by
  intro names
  induction names with
  | nil =>
    intro tm n infosOut h x hx
    exact ⟨⟨infosOut, h, hx⟩, by simp⟩
  | cons name names ih =>
    intro tm n infosOut h x hx
    simp only [unregTools] at h
    cases hb : alookup tm name with
    | none =>
      rw [hb] at h
      dsimp only at h
      obtain ⟨⟨infos, hinf, hxin⟩, hnot⟩ := ih tm n infosOut h x hx
      refine ⟨⟨infos, hinf, hxin⟩, ?_⟩
      intro hmem
      rcases List.mem_cons.mp hmem with rfl | hmem
      · rw [hb] at hinf; cases hinf
      · exact hnot hmem
    | some infos₀ =>
      rw [hb] at h
      dsimp only at h
      set kept := infos₀.filter fun i => i.component_id ≠ cid with hkept
      by_cases hk : kept.isEmpty
      · rw [if_pos hk] at h
        obtain ⟨⟨infos, hinf, hxin⟩, hnot⟩ := ih _ n infosOut h x hx
        by_cases hn : n = name
        · subst hn
          rw [alookup_aremove_self] at hinf
          cases hinf
        · rw [alookup_aremove_ne _ hn] at hinf
          exact ⟨⟨infos, hinf, hxin⟩, fun hmem => by
            rcases List.mem_cons.mp hmem with rfl | hmem
            · exact absurd rfl hn
            · exact hnot hmem⟩
      · rw [if_neg hk] at h
        obtain ⟨⟨infos, hinf, hxin⟩, hnot⟩ := ih _ n infosOut h x hx
        by_cases hn : n = name
        · subst hn
          rw [alookup_ainsert_self] at hinf
          cases hinf
          have hxk : x ∈ kept := hxin
          rw [hkept] at hxk
          have hxin₀ := List.mem_filter.mp hxk
          refine ⟨⟨infos₀, hb, hxin₀.1⟩, fun _ => by simpa using hxin₀.2⟩
        · rw [alookup_ainsert_ne _ _ hn] at hinf
          exact ⟨⟨infos, hinf, hxin⟩, fun hmem => by
            rcases List.mem_cons.mp hmem with rfl | hmem
            · exact absurd rfl hn
            · exact hnot hmem⟩

theorem unregTools_nonempty (cid : String) :
    ∀ (names : List String) (tm : List (String × List ToolInfo)),
      BucketsNonempty tm → BucketsNonempty (unregTools cid names tm) := by
  intro names
  induction names with
  | nil => intro tm h; exact h
  | cons name names ih =>
    intro tm h
    simp only [unregTools]
    cases hb : alookup tm name with
    | none => exact ih tm h
    | some infos₀ =>
      dsimp only
      set kept := infos₀.filter fun i => i.component_id ≠ cid with hkept
      by_cases hk : kept.isEmpty
      · rw [if_pos hk]
        refine ih _ ?_
        intro n infos hinf
        by_cases hn : n = name
        · subst hn; rw [alookup_aremove_self] at hinf; cases hinf
        · rw [alookup_aremove_ne _ hn] at hinf
          exact h n infos hinf
      · rw [if_neg hk]
        refine ih _ ?_
        intro n infos hinf
        by_cases hn : n = name
        · subst hn
          rw [alookup_ainsert_self] at hinf
          cases hinf
          simpa [List.isEmpty_iff] using hk
        · rw [alookup_ainsert_ne _ _ hn] at hinf
          exact h n infos hinf

theorem unregTools_survives (cid : String) :
    ∀ (names : List String) (tm : List (String × List ToolInfo)) (n : String)
      (infos : List ToolInfo) (x : ToolInfo),
      alookup tm n = some infos → x ∈ infos → x.component_id ≠ cid →
      ∃ infosOut, alookup (unregTools cid names tm) n = some infosOut
        ∧ x ∈ infosOut := by
  intro names
  induction names with
  | nil => intro tm n infos x h hx _; exact ⟨infos, h, hx⟩
  | cons name names ih =>
    intro tm n infos x h hx hxcid
    simp only [unregTools]
    cases hb : alookup tm name with
    | none => exact ih tm n infos x h hx hxcid
    | some infos₀ =>
      dsimp only
      set kept := infos₀.filter fun i => i.component_id ≠ cid with hkept
      by_cases hn : n = name
      · subst hn
        rw [h] at hb
        cases hb
        have hxkept : x ∈ kept := by
          rw [hkept]
          exact List.mem_filter.mpr ⟨hx, by simpa using hxcid⟩
        have hkne : ¬kept.isEmpty := by
          intro hemp
          rw [List.isEmpty_iff] at hemp
          rw [hemp] at hxkept
          simp at hxkept
        rw [if_neg hkne]
        exact ih _ n kept x (alookup_ainsert_self _ _ _) hxkept hxcid
      · by_cases hk : kept.isEmpty
        · rw [if_pos hk]
          exact ih _ n infos x (by rw [alookup_aremove_ne _ hn]; exact h) hx hxcid
        · rw [if_neg hk]
          exact ih _ n infos x (by rw [alookup_ainsert_ne _ _ hn]; exact h) hx hxcid

/-- Registry invariant: non-empty buckets, and reverse-index names covered by
buckets holding an entry of the recording component. -/
def RegInv (reg : ComponentRegistry) : Prop :=
  BucketsNonempty reg.tool_map ∧ ReverseCovered reg

theorem register_component_nonempty {reg : ComponentRegistry} {cid : String}
    {schema : Json} (h : BucketsNonempty reg.tool_map) :
    BucketsNonempty (register_component reg cid schema).1.tool_map := by
  unfold register_component
  cases htools : schema.index "tools"
  case arr tools =>
    dsimp only
    split
    · exact registerTools_nonempty cid tools reg.tool_map h
    · exact registerTools_nonempty cid tools reg.tool_map h
  all_goals (dsimp only; exact h)

theorem register_component_reverse {reg : ComponentRegistry} {cid : String}
    {schema : Json} (h : ReverseCovered reg) :
    ReverseCovered (register_component reg cid schema).1 := by
  unfold register_component
  cases htools : schema.index "tools"
  case arr tools =>
    dsimp only
    split
    · intro cid₁ names hnames n hn
      by_cases hc : cid₁ = cid
      · subst hc
        rw [alookup_ainsert_self] at hnames
        cases hnames
        exact registerTools_names cid₁ tools reg.tool_map n hn
      · rw [alookup_ainsert_ne _ _ hc] at hnames
        obtain ⟨infos, hinf, x, hx, hxcid⟩ := h cid₁ names hnames n hn
        obtain ⟨infosOut, hout, hxout⟩ :=
          registerTools_preserves cid tools reg.tool_map n infos x hinf hx
        exact ⟨infosOut, hout, x, hxout, hxcid⟩
    · intro cid₁ names hnames n hn
      obtain ⟨infos, hinf, x, hx, hxcid⟩ := h cid₁ names hnames n hn
      obtain ⟨infosOut, hout, hxout⟩ :=
        registerTools_preserves cid tools reg.tool_map n infos x hinf hx
      exact ⟨infosOut, hout, x, hxout, hxcid⟩
  all_goals (dsimp only; exact h)

theorem unregister_component_nonempty {reg : ComponentRegistry} {cid : String}
    (h : BucketsNonempty reg.tool_map) :
    BucketsNonempty (unregister_component reg cid).tool_map := by
  unfold unregister_component
  cases hb : alookup reg.component_map cid
  · exact h
  · exact unregTools_nonempty cid _ reg.tool_map h

theorem unregister_component_reverse {reg : ComponentRegistry} {cid : String}
    (h : ReverseCovered reg) :
    ReverseCovered (unregister_component reg cid) := by
  unfold unregister_component
  cases hb : alookup reg.component_map cid with
  | none => exact h
  | some names =>
    intro cid₁ names₁ hnames₁ n hn
    dsimp only at hnames₁ ⊢
    by_cases hc : cid₁ = cid
    · subst hc
      rw [alookup_aremove_self] at hnames₁
      cases hnames₁
    · rw [alookup_aremove_ne _ hc] at hnames₁
      obtain ⟨infos, hinf, x, hx, hxcid⟩ := h cid₁ names₁ hnames₁ n hn
      obtain ⟨infosOut, hout, hxout⟩ := unregTools_survives cid names reg.tool_map n
        infos x hinf hx (by rw [hxcid]; exact hc)
      exact ⟨infosOut, hout, x, hxout, hxcid⟩

/-- Unregistering a component under the `ToolCovered` well-formedness
invariant removes its reverse-index entry and every bucket entry it owned. -/
theorem unregister_clears {reg : ComponentRegistry} (cid : String)
    (hcov : ToolCovered reg) :
    alookup (unregister_component reg cid).component_map cid = none
      ∧ NoCompEntries (unregister_component reg cid).tool_map cid := by
  unfold unregister_component
  cases hb : alookup reg.component_map cid with
  | none =>
    refine ⟨hb, ?_⟩
    intro n infos hinf x hx hxcid
    obtain ⟨names, hnames, _⟩ := hcov n infos hinf x hx
    rw [hxcid, hb] at hnames
    cases hnames
  | some names =>
    dsimp only
    refine ⟨alookup_aremove_self _ _, ?_⟩
    intro n infos hinf x hx hxcid
    obtain ⟨⟨infos₀, hinf₀, hx₀⟩, hnot⟩ := unregTools_entries cid names reg.tool_map n
      infos hinf x hx
    obtain ⟨names₀, hnames₀, hn₀⟩ := hcov n infos₀ hinf₀ x hx₀
    rw [hxcid, hb] at hnames₀
    cases hnames₀
    exact hnot hn₀ hxcid

/-! ## Registry operation sequences and claims C10 and C4 -/

/-- Registry operations available to callers. -/
inductive RegOp where
  | registerOp (cid : String) (schema : Json)
  | unregisterOp (cid : String)

/-- Application of one registry operation (a failed registration still leaves
its partial tool-index mutation behind, as in the Rust code). -/
def applyOp (reg : ComponentRegistry) : RegOp → ComponentRegistry
  | RegOp.registerOp cid schema => (register_component reg cid schema).1
  | RegOp.unregisterOp cid => unregister_component reg cid

/-- Application of a sequence of registry operations to the empty registry. -/
def applyOps (ops : List RegOp) : ComponentRegistry :=
  ops.foldl applyOp ComponentRegistry.empty

theorem RegInv_empty : RegInv ComponentRegistry.empty := by
  constructor
  · intro n infos h; simp [ComponentRegistry.empty, alookup] at h
  · intro cid names h; simp [ComponentRegistry.empty, alookup] at h

theorem RegInv_applyOp {reg : ComponentRegistry} (op : RegOp) (h : RegInv reg) :
    RegInv (applyOp reg op) := by
  cases op with
  | registerOp cid schema =>
    exact ⟨register_component_nonempty h.1, register_component_reverse h.2⟩
  | unregisterOp cid =>
    exact ⟨unregister_component_nonempty h.1, unregister_component_reverse h.2⟩

theorem RegInv_applyOps (ops : List RegOp) : RegInv (applyOps ops) := by
  suffices h : ∀ reg, RegInv reg → RegInv (ops.foldl applyOp reg) from
    h ComponentRegistry.empty RegInv_empty
  induction ops with
  | nil => intro reg h; exact h
  | cons op ops ih =>
    intro reg h
    exact ih (applyOp reg op) (RegInv_applyOp op h)

theorem get_tool_no_panic {reg : ComponentRegistry}
    (h : BucketsNonempty reg.tool_map) (name : String) :
    get_component_id_for_tool reg name ≠ none := by
  unfold get_component_id_for_tool
  cases hb : alookup reg.tool_map name with
  | none => simp
  | some infos =>
    dsimp only
    split
    · simp
    · cases infos with
      | nil => exact absurd rfl (h name [] hb)
      | cons info rest => simp

/-- C10: starting from the empty `ComponentRegistry`, after any sequence of
`register_component` and `unregister_component` operations every bucket of the
tool index is non-empty and every tool name recorded in the reverse index has
a bucket containing an entry for that component; consequently
`get_component_id_for_tool` never reaches the `tool_infos[0]` indexing of an
empty bucket (the `none` outcome of the model). -/
theorem C10_registry_invariant (ops : List RegOp) (name : String) :
    (BucketsNonempty (applyOps ops).tool_map ∧ ReverseCovered (applyOps ops))
      ∧ get_component_id_for_tool (applyOps ops) name ≠ none :=
  ⟨RegInv_applyOps ops, get_tool_no_panic (RegInv_applyOps ops).1 name⟩

/-- C4: looking up a tool name present in the registry returns the unique
owning component when the bucket has exactly one entry, and fails with the
message listing every candidate component id (in bucket order, comma
separated) when the bucket has more than one entry. -/
theorem C4_tool_lookup (reg : ComponentRegistry) (name : String)
    (infos : List ToolInfo) (h : alookup reg.tool_map name = some infos) :
    (∀ info, infos = [info] →
      get_component_id_for_tool reg name = some (Except.ok info.component_id))
    ∧ (1 < infos.length →
      get_component_id_for_tool reg name
        = some (Except.error
            ("Multiple components found for tool \x27" ++ name ++ "\x27: "
              ++ String.intercalate ", " (infos.map fun i => i.component_id)))) := by
  constructor
  · intro info hinfo
    subst hinfo
    unfold get_component_id_for_tool
    rw [h]
    simp
  · intro hlen
    unfold get_component_id_for_tool
    rw [h]
    dsimp only
    rw [if_pos hlen]
    rfl

/-- Registry with an ambiguous tool bucket, used by the C4 witness. -/
def ambiguousReg : ComponentRegistry :=
  ComponentRegistry.mk
    [("run", [ToolInfo.mk "compA" Json.null, ToolInfo.mk "compB" Json.null])]
    []

/-- C4 witness: a two-entry bucket produces the candidate-listing error. -/
theorem C4_tool_lookup_witness :
    (alookup ambiguousReg.tool_map "run"
      = some [ToolInfo.mk "compA" Json.null, ToolInfo.mk "compB" Json.null])
    ∧ get_component_id_for_tool ambiguousReg "run"
      = some (Except.error
          "Multiple components found for tool \x27run\x27: compA, compB") := by
  have h : alookup ambiguousReg.tool_map "run"
      = some [ToolInfo.mk "compA" Json.null, ToolInfo.mk "compB" Json.null] := by
    simp [ambiguousReg, alookup]
  refine ⟨h, ?_⟩
  have h₂ := (C4_tool_lookup ambiguousReg "run" _ h).2 (by simp)
  rw [h₂]
  rfl

/-! ## Load rollback (claim C3) -/

/-- Model of the `LoadResult` enum. -/
inductive LoadResult where
  | Replaced
  | New
deriving DecidableEq, Repr

/-- State touched by `load_component`: the in-memory component map (compiled
components modelled as opaque tokens) and the registry. -/
structure LifecycleState where
  components : List (String × Nat)
  registry : ComponentRegistry

/-- Model of `LifecycleManager::load_component` from the point where the
fetched file has been read and compiled: `id` is the downloaded file\x27s stem,
`schema` the generated schema, `handle` the compiled component, and `copyOk`
tells whether the copy/rename into the plugin directory succeeds.  Mirrors the
order of the Rust code: unregister + register under the registry lock, then
the copy (rolling the registration back on failure), then the component-map
insert. -/
def load_component (st : LifecycleState) (id : String) (schema : Json)
    (handle : Nat) (copyOk : Bool) :
    LifecycleState × Except String (String × LoadResult) :=
  let rr := register_component (unregister_component st.registry id) id schema
  match rr.2 with
  | Except.error e => ({ st with registry := rr.1 }, Except.error e)
  | Except.ok _ =>
    if copyOk then
      ({ components := ainsert st.components id handle, registry := rr.1 },
       Except.ok (id,
         match alookup st.components id with
         | some _ => LoadResult.Replaced
         | none => LoadResult.New))
    else
      ({ st with registry := unregister_component rr.1 id },
       Except.error "Failed to copy component to destination")

theorem register_component_ok_shape {reg : ComponentRegistry} {cid : String}
    {schema : Json} (h : (register_component reg cid schema).2 = Except.ok ()) :
    ∃ tools, schema.index "tools" = Json.arr tools
      ∧ (register_component reg cid schema).1
        = { tool_map := (registerTools reg.tool_map cid tools).1,
            component_map :=
              ainsert reg.component_map cid (registerTools reg.tool_map cid tools).2.1 } := by
  unfold register_component at h ⊢
  cases htools : schema.index "tools"
  case arr tools =>
    rw [htools] at h
    dsimp only at h ⊢
    refine ⟨tools, rfl, ?_⟩
    split at h
    · rename_i hok
      rw [if_pos hok]
    · cases h
  all_goals (rw [htools] at h; dsimp only at h; simp at h)

/-- C3: if `load_component` reaches the copy step (compile and registration
succeeded) and the copy into the plugin directory fails, it returns an error,
the component id is fully unregistered from the tool registry (no reverse
index entry, no bucket entry), and the in-memory component map is unchanged,
so a previously loaded component with the same id remains in the map. -/
theorem C3_copy_failure_rollback (st : LifecycleState) (id : String)
    (schema : Json) (handle : Nat) (hcov : ToolCovered st.registry)
    (hreg : (register_component (unregister_component st.registry id) id schema).2
      = Except.ok ()) :
    (load_component st id schema handle false).2
        = Except.error "Failed to copy component to destination"
    ∧ (load_component st id schema handle false).1.components = st.components
    ∧ alookup (load_component st id schema handle false).1.registry.component_map id
        = none
    ∧ NoCompEntries (load_component st id schema handle false).1.registry.tool_map id := by
  have hclear := unregister_clears id hcov
  obtain ⟨tools, htools, hshape⟩ := register_component_ok_shape hreg
  have hload : load_component st id schema handle false
      = ({ st with
            registry := unregister_component
              (register_component (unregister_component st.registry id) id schema).1 id },
         Except.error "Failed to copy component to destination") := by
    unfold load_component
    dsimp only
    rw [hreg]
    simp
  rw [hload]
  refine ⟨rfl, rfl, ?_, ?_⟩
  · rw [hshape]
    unfold unregister_component
    rw [alookup_ainsert_self]
    dsimp only
    exact alookup_aremove_self _ _
  · rw [hshape]
    unfold unregister_component
    rw [alookup_ainsert_self]
    dsimp only
    intro n infos hinf x hx hxcid
    obtain ⟨⟨infos₀, hinf₀, hx₀⟩, hnot⟩ := unregTools_entries id
      (registerTools (unregister_component st.registry id).tool_map id tools).2.1 _
      n infos hinf x hx
    rcases registerTools_entries id tools (unregister_component st.registry id).tool_map
      n infos₀ hinf₀ x hx₀ with
      h₁ | h₁
    · obtain ⟨infos₁, hinf₁, hx₁⟩ := h₁
      exact hclear.2 n infos₁ hinf₁ x hx₁ hxcid
    · exact hnot h₁.1 hxcid

/-- C3 witness: a state holding a previously loaded component `c` with one
tool survives a failing copy; the error is returned, `c` stays in the
component map, and `c` is no longer registered. -/
theorem C3_copy_failure_rollback_witness :
    (ToolCovered (ComponentRegistry.mk [] [])
      ∧ (register_component
          (unregister_component (ComponentRegistry.mk [] []) "c") "c"
          (Json.obj [("tools", Json.arr [Json.obj [("name", Json.str "echo")]])])).2
        = Except.ok ())
    ∧ (load_component ⟨[("c", 7)], ComponentRegistry.mk [] []⟩ "c"
        (Json.obj [("tools", Json.arr [Json.obj [("name", Json.str "echo")]])]) 9 false).2
        = Except.error "Failed to copy component to destination"
    ∧ (load_component ⟨[("c", 7)], ComponentRegistry.mk [] []⟩ "c"
        (Json.obj [("tools", Json.arr [Json.obj [("name", Json.str "echo")]])]) 9 false).1.components
        = [("c", 7)] := by
  have hcov : ToolCovered (ComponentRegistry.mk [] []) := by
    intro n infos h
    simp [alookup] at h
  have hreg : (register_component
      (unregister_component (ComponentRegistry.mk [] []) "c") "c"
      (Json.obj [("tools", Json.arr [Json.obj [("name", Json.str "echo")]])])).2
      = Except.ok () := by
    simp [unregister_component, alookup, register_component, Json.index,
      Json.lookup, registerTools]
  have h := C3_copy_failure_rollback ⟨[("c", 7)], ComponentRegistry.mk [] []⟩ "c"
    (Json.obj [("tools", Json.arr [Json.obj [("name", Json.str "echo")]])]) 9 hcov hreg
  exact ⟨⟨hcov, hreg⟩, h.1, h.2.1⟩

/-! ## Sandbox templates and WasiStateTemplate::build (claim C9) -/

/-- Modelled from the spec: the network flags of a sandbox template
(`allow_tcp`, `allow_udp`, `allow_ip_name_lookup`), all false by default. -/
structure NetworkPerms where
  allow_tcp : Bool := false
  allow_udp : Bool := false
  allow_ip_name_lookup : Bool := false
deriving DecidableEq, Repr

/-- Directory or file permission bits of a preopened directory. -/
structure Perms where
  read : Bool
  write : Bool
deriving DecidableEq, Repr

/-- Modelled from the spec: one preopened-directory entry of a sandbox
template. -/
structure PreopenedDir where
  host_path : String
  guest_path : String
  dir_perms : Perms
  file_perms : Perms
deriving DecidableEq, Repr

/-- Modelled from the spec: the `WasiStateTemplate` struct.  Its declaration
lives in the `wasistate` module, which is not among the provided sources; the
fields follow the uses in `WasiStateTemplate::build` and §3 of the spec, and
the defaults follow §4.D (default template: deny network, no preopens, no env
vars, inherit stderr only; args allowed by default). -/
structure WasiStateTemplate where
  allow_stdout : Bool := false
  allow_stderr : Bool := true
  allow_args : Bool := true
  network_perms : NetworkPerms := {}
  preopened_dirs : List PreopenedDir := []
  config_vars : List (String × String) := []
deriving DecidableEq, Repr

/-- Default template (`WasiStateTemplate::default`), used when a component has
no policy attached. -/
def WasiStateTemplate.defaultTemplate : WasiStateTemplate := {}

/-- Observable result of `WasiStateTemplate::build`: the settings accumulated
on the `WasiCtxBuilder` plus the config variables of the produced
`WasiState`. -/
structure WasiCtxModel where
  stdout_inherited : Bool
  stderr_inherited : Bool
  args_inherited : Bool
  network_inherited : Bool
  allow_tcp : Bool
  allow_udp : Bool
  allow_ip_name_lookup : Bool
  preopens : List PreopenedDir
  wasi_config_vars : List (String × String)
deriving DecidableEq, Repr

/-- Registration of the preopened dirs, which aborts the build on the first
failing `preopened_dir` call; `preopenOk` abstracts that I/O effect. -/
def buildPreopens (preopenOk : PreopenedDir → Bool) :
    List PreopenedDir → Except String (List PreopenedDir)
  | [] => Except.ok []
  | d :: ds =>
    if preopenOk d then
      match buildPreopens preopenOk ds with
      | Except.ok rest => Except.ok (d :: rest)
      | Except.error e => Except.error e
    else Except.error "preopened_dir failed"

/-- Model of `WasiStateTemplate::build` (weld crate, lines 84–117): stdout and
stderr are inherited under their flags, `inherit_args` is called
unconditionally and then again under `allow_args`, the network is inherited
with the template\x27s three flags, and the preopened dirs are registered. -/
def WasiStateTemplate.build (preopenOk : PreopenedDir → Bool)
    (t : WasiStateTemplate) : Except String WasiCtxModel :=
  let c₀ : WasiCtxModel :=
    { stdout_inherited := false, stderr_inherited := false, args_inherited := false,
      network_inherited := false, allow_tcp := false, allow_udp := false,
      allow_ip_name_lookup := false, preopens := [], wasi_config_vars := [] }
  let c₁ := if t.allow_stdout then { c₀ with stdout_inherited := true } else c₀
  let c₂ := if t.allow_stderr then { c₁ with stderr_inherited := true } else c₁
  let c₃ := { c₂ with args_inherited := true }
  let c₄ := if t.allow_args then { c₃ with args_inherited := true } else c₃
  let c₅ := { c₄ with network_inherited := true,
                      allow_tcp := t.network_perms.allow_tcp,
                      allow_udp := t.network_perms.allow_udp,
                      allow_ip_name_lookup := t.network_perms.allow_ip_name_lookup }
  match buildPreopens preopenOk t.preopened_dirs with
  | Except.ok ds => Except.ok { c₅ with preopens := ds, wasi_config_vars := t.config_vars }
  | Except.error e => Except.error e

/-- C9: every sandbox state produced by `WasiStateTemplate::build` inherits
the host process arguments regardless of the template\x27s `allow_args` flag
(`inherit_args` runs unconditionally before the `allow_args` check), while
stdout and stderr are inherited exactly when `allow_stdout` and `allow_stderr`
are set. -/
theorem C9_build_args_unconditional (preopenOk : PreopenedDir → Bool)
    (t : WasiStateTemplate) (c : WasiCtxModel)
    (h : WasiStateTemplate.build preopenOk t = Except.ok c) :
    c.args_inherited = true
    ∧ c.stdout_inherited = t.allow_stdout
    ∧ c.stderr_inherited = t.allow_stderr := by
  unfold WasiStateTemplate.build at h
  cases hb : buildPreopens preopenOk t.preopened_dirs with
  | ok ds =>
    rw [hb] at h
    dsimp only at h
    cases h
    cases hso : t.allow_stdout <;> cases hse : t.allow_stderr <;>
      cases ha : t.allow_args <;> simp [hso, hse, ha]
  | error e =>
    rw [hb] at h
    cases h

/-- C9 witness: the build of a template with `allow_args := false` and
`allow_stdout := false` still inherits the arguments and inherits neither
stdout (flag off) nor misses stderr (flag on). -/
theorem C9_build_args_unconditional_witness :
    ∃ c, WasiStateTemplate.build (fun _ => true)
        { allow_stdout := false, allow_stderr := true, allow_args := false }
      = Except.ok c
      ∧ (c.args_inherited = true
        ∧ c.stdout_inherited = false
        ∧ c.stderr_inherited = true) := by
  cases hb : WasiStateTemplate.build (fun _ => true)
      ({ allow_stdout := false, allow_stderr := true, allow_args := false }
        : WasiStateTemplate) with
  | ok c =>
    refine ⟨c, rfl, ?_⟩
    have h := C9_build_args_unconditional _ _ _ hb
    exact ⟨h.1, h.2.1, h.2.2⟩
  | error e =>
    exact absurd hb (by simp [WasiStateTemplate.build, buildPreopens])

/-! ## Unload versus uninstall (claim C8) -/

/-- Full manager state for the unload/uninstall claims: in-memory component
map, registry, policy registry, and the set of files in the plugin directory
(`disk`). -/
structure ManagerState where
  components : List (String × Nat)
  registry : ComponentRegistry
  policies : List (String × WasiStateTemplate)
  disk : List String

/-- Model of `component_path`: `<id>.wasm` inside the plugin directory. -/
def component_path (id : String) : String := id ++ ".wasm"

/-- Model of `LifecycleManager::unload_component`: remove from the component
map, unregister from the registry; nothing else is touched. -/
def manager_unload_component (st : ManagerState) (id : String) : ManagerState :=
  { st with components := aremove st.components id,
            registry := unregister_component st.registry id }

/-- Model of `LifecycleManager::uninstall_component`: unload, then delete
`<id>.wasm` (an error when the file is absent, as `remove_file` fails). -/
def manager_uninstall_component (st : ManagerState) (id : String) :
    ManagerState × Except String Unit :=
  let st₁ := manager_unload_component st id
  if component_path id ∈ st₁.disk then
    ({ st₁ with disk := st₁.disk.erase (component_path id) }, Except.ok ())
  else
    (st₁, Except.error "Failed to remove component file")

/-- C8: `unload_component` removes the component from the in-memory map and
unregisters all of its tools, leaving the disk (the `.wasm` file and any
policy sidecars) and the policy registry untouched; only
`uninstall_component` additionally deletes `<id>.wasm` from disk, leaving
every other file in place. -/
theorem C8_unload_uninstall (st : ManagerState) (id : String)
    (hcov : ToolCovered st.registry) :
    alookup (manager_unload_component st id).components id = none
    ∧ alookup (manager_unload_component st id).registry.component_map id = none
    ∧ NoCompEntries (manager_unload_component st id).registry.tool_map id
    ∧ (manager_unload_component st id).disk = st.disk
    ∧ (manager_unload_component st id).policies = st.policies
    ∧ (component_path id ∈ st.disk →
        (manager_uninstall_component st id).2 = Except.ok ()
        ∧ (manager_uninstall_component st id).1.disk = st.disk.erase (component_path id)
        ∧ ∀ f ∈ st.disk, f ≠ component_path id →
            f ∈ (manager_uninstall_component st id).1.disk) := by
  have hclear := unregister_clears id hcov
  refine ⟨alookup_aremove_self _ _, hclear.1, hclear.2, rfl, rfl, ?_⟩
  intro hdisk
  have hu : manager_uninstall_component st id
      = ({ manager_unload_component st id with
            disk := st.disk.erase (component_path id) }, Except.ok ()) := by
    unfold manager_uninstall_component
    rw [if_pos (by exact hdisk)]
    rfl
  rw [hu]
  refine ⟨rfl, rfl, ?_⟩
  intro f hf hfne
  exact (List.mem_erase_of_ne hfne).mpr hf

/-- C8 witness: unloading a concrete one-component manager leaves both the
`.wasm` file and the policy sidecar on disk, and uninstalling removes exactly
the `.wasm` file. -/
theorem C8_unload_uninstall_witness :
    ToolCovered (ComponentRegistry.mk [] [])
    ∧ (manager_unload_component
        ⟨[("c", 3)], ComponentRegistry.mk [] [], [], ["c.wasm", "c.policy.yaml"]⟩
        "c").disk = ["c.wasm", "c.policy.yaml"]
    ∧ (manager_uninstall_component
        ⟨[("c", 3)], ComponentRegistry.mk [] [], [], ["c.wasm", "c.policy.yaml"]⟩
        "c").1.disk = ["c.policy.yaml"] := by
  have hcov : ToolCovered (ComponentRegistry.mk [] []) := by
    intro n infos h
    simp [alookup] at h
  have h := C8_unload_uninstall
    ⟨[("c", 3)], ComponentRegistry.mk [] [], [], ["c.wasm", "c.policy.yaml"]⟩ "c" hcov
  have hmem : component_path "c" ∈
      (⟨[("c", 3)], ComponentRegistry.mk [] [], [], ["c.wasm", "c.policy.yaml"]⟩
        : ManagerState).disk := by
    simp [component_path]
  refine ⟨hcov, h.2.2.2.1, ?_⟩
  rw [(h.2.2.2.2.2 hmem).2.1]
  simp [component_path]

/-! ## Startup recovery (claim C7) -/

/-- Outcome of the co-located `<id>.policy.yaml` handling for one component
during the startup scan: no file, file read failure, parse failure, template
creation failure, or a successfully restored template.  The three failure
outcomes correspond to the three `warn!` branches of `new_with_policy`. -/
inductive PolicyLoadOutcome where
  | noFile
  | readErr
  | parseErr
  | templateErr
  | restored (tmpl : WasiStateTemplate)
deriving DecidableEq, Repr

/-- Whether the outcome is one of the read/parse/template failures. -/
def PolicyLoadOutcome.failed : PolicyLoadOutcome → Bool
  | PolicyLoadOutcome.readErr => true
  | PolicyLoadOutcome.parseErr => true
  | PolicyLoadOutcome.templateErr => true
  | _ => false

/-- One compiled `.wasm` found by the directory scan: its file-stem name, its
generated schema, and the outcome of its co-located policy file. -/
structure ScannedComponent where
  name : String
  schema : Json
  policy : PolicyLoadOutcome
deriving Repr

/-- In-memory state assembled by `new_with_policy`. -/
structure ManagerInit where
  components : List String
  registry : ComponentRegistry
  policies : List (String × WasiStateTemplate)

/-- Model of the loop of `LifecycleManager::new_with_policy`: register each
component (a registration failure aborts construction via `?`), insert the
compiled component, and install a policy template only when the co-located
policy was read, parsed and materialized successfully — every failure branch
merely logs and continues. -/
def new_with_policy : List ScannedComponent → ManagerInit → Except String ManagerInit
  | [], st => Except.ok st
  | e :: rest, st =>
    let rr := register_component st.registry e.name e.schema
    match rr.2 with
    | Except.error msg => Except.error msg
    | Except.ok _ =>
      new_with_policy rest
        { components := st.components ++ [e.name],
          registry := rr.1,
          policies :=
            match e.policy with
            | PolicyLoadOutcome.restored tmpl => ainsert st.policies e.name tmpl
            | _ => st.policies }

/-- Startup from an empty state, as the constructor does. -/
def new_with_policy_scan (entries : List ScannedComponent) : Except String ManagerInit :=
  new_with_policy entries ⟨[], ComponentRegistry.empty, []⟩

/-- Model of the template choice of `get_wasi_state_for_component`: the
component\x27s installed template, or the default template when none is
installed. -/
def policy_template_for (policies : List (String × WasiStateTemplate))
    (cid : String) : WasiStateTemplate :=
  (alookup policies cid).getD WasiStateTemplate.defaultTemplate

theorem new_with_policy_preserves {entries : List ScannedComponent}
    {st out : ManagerInit} (hok : new_with_policy entries st = Except.ok out) :
    (∀ c ∈ st.components, c ∈ out.components)
    ∧ (∀ n names, alookup st.registry.component_map n = some names →
        n ∉ entries.map ScannedComponent.name →
        ∃ names₁, alookup out.registry.component_map n = some names₁)
    ∧ (∀ n, n ∉ entries.map ScannedComponent.name →
        alookup out.policies n = alookup st.policies n) := by
  induction entries generalizing st with
  | nil =>
    cases hok
    exact ⟨fun c hc => hc, fun n names h _ => ⟨names, h⟩, fun n _ => rfl⟩
  | cons e rest ih =>
    simp only [new_with_policy] at hok
    cases hrr : (register_component st.registry e.name e.schema).2 with
    | error msg => rw [hrr] at hok; cases hok
    | ok _ =>
      rw [hrr] at hok
      dsimp only at hok
      obtain ⟨hcomp, hcm, hpol⟩ := ih hok
      refine ⟨?_, ?_, ?_⟩
      · intro c hc
        exact hcomp c (by simp [hc])
      · intro n names hn hnot
        simp only [List.map_cons, List.mem_cons] at hnot
        push_neg at hnot
        obtain ⟨tools, htools, hshape⟩ := register_component_ok_shape hrr
        refine hcm n names ?_ hnot.2
        rw [hshape]
        dsimp only
        rw [alookup_ainsert_ne _ _ hnot.1]
        exact hn
      · intro n hnot
        simp only [List.map_cons, List.mem_cons] at hnot
        push_neg at hnot
        rw [hpol n hnot.2]
        cases e.policy <;> simp only
        case restored tmpl => rw [alookup_ainsert_ne _ _ hnot.1]

theorem new_with_policy_main {entries : List ScannedComponent}
    {st out : ManagerInit} {e : ScannedComponent}
    (hok : new_with_policy entries st = Except.ok out)
    (hmem : e ∈ entries) (hfail : e.policy.failed = true)
    (hnd : (entries.map ScannedComponent.name).Nodup)
    (hpol₀ : alookup st.policies e.name = none) :
    e.name ∈ out.components
    ∧ (∃ names, alookup out.registry.component_map e.name = some names)
    ∧ alookup out.policies e.name = none := by
  induction entries generalizing st with
  | nil => simp at hmem
  | cons f rest ih =>
    simp only [new_with_policy] at hok
    cases hrr : (register_component st.registry f.name f.schema).2 with
    | error msg => rw [hrr] at hok; cases hok
    | ok _ =>
      rw [hrr] at hok
      dsimp only at hok
      simp only [List.map_cons, List.nodup_cons] at hnd
      rcases List.mem_cons.mp hmem with rfl | hmem₁
      · have hnotrest : e.name ∉ rest.map ScannedComponent.name := hnd.1
        obtain ⟨hcomp, hcm, hpol⟩ := new_with_policy_preserves hok
        obtain ⟨tools, htools, hshape⟩ := register_component_ok_shape hrr
        refine ⟨hcomp e.name (by simp), ?_, ?_⟩
        · refine hcm e.name
            ((registerTools st.registry.tool_map e.name tools).2.1) ?_ hnotrest
          rw [hshape]
          dsimp only
          rw [alookup_ainsert_self]
        · rw [hpol e.name hnotrest]
          cases hp : e.policy <;> simp_all [PolicyLoadOutcome.failed]
      · refine ih hok hmem₁ hnd.2 ?_
        have hne : e.name ≠ f.name := by
          intro hEq
          exact hnd.1 (hEq ▸ List.mem_map.mpr ⟨e, hmem₁, rfl⟩)
        cases hp : f.policy <;> simp only
        case restored tmpl => rw [alookup_ainsert_ne _ _ hne]; exact hpol₀
        all_goals exact hpol₀

/-- C7: if startup construction succeeds and some scanned component\x27s
co-located policy file failed to be read, parsed, or materialized, the
component is nevertheless present in the component map and registered, no
policy-registry entry is installed for it, and the template chosen for its
calls is the default sandbox template. -/
theorem C7_policy_failure_degrades (entries : List ScannedComponent)
    (out : ManagerInit) (e : ScannedComponent)
    (hok : new_with_policy_scan entries = Except.ok out)
    (hmem : e ∈ entries) (hfail : e.policy.failed = true)
    (hnd : (entries.map ScannedComponent.name).Nodup) :
    e.name ∈ out.components
    ∧ (∃ names, alookup out.registry.component_map e.name = some names)
    ∧ alookup out.policies e.name = none
    ∧ policy_template_for out.policies e.name = WasiStateTemplate.defaultTemplate := by
  obtain ⟨h₁, h₂, h₃⟩ := new_with_policy_main hok hmem hfail hnd (by simp [alookup])
  refine ⟨h₁, h₂, h₃, ?_⟩
  unfold policy_template_for
  rw [h₃]
  rfl

/-- C7 witness: a single component whose policy file fails to parse still
starts, registered, with the default template. -/
theorem C7_policy_failure_degrades_witness :
    (∃ out, new_with_policy_scan
        [⟨"x", Json.obj [("tools", Json.arr [])], PolicyLoadOutcome.parseErr⟩]
        = Except.ok out
      ∧ "x" ∈ out.components
      ∧ (∃ names, alookup out.registry.component_map "x" = some names)
      ∧ alookup out.policies "x" = none
      ∧ policy_template_for out.policies "x" = WasiStateTemplate.defaultTemplate) := by
  cases hok : new_with_policy_scan
      [⟨"x", Json.obj [("tools", Json.arr [])], PolicyLoadOutcome.parseErr⟩] with
  | ok out =>
    refine ⟨out, rfl, ?_⟩
    exact C7_policy_failure_degrades _ out
      ⟨"x", Json.obj [("tools", Json.arr [])], PolicyLoadOutcome.parseErr⟩
      hok (by simp) rfl (by simp)
  | error msg =>
    exact absurd hok (by
      simp [new_with_policy_scan, new_with_policy, register_component, Json.index,
        Json.lookup, registerTools, ComponentRegistry.empty])

/-! ## Policy documents and granular grants (claims C5 and C6) -/

/-- Model of `AccessType` (weld crate and policy_mcp). -/
inductive AccessType where
  | read
  | write
deriving DecidableEq, Repr

/-- Modelled from the spec: one `network.allow` entry (`\x7b host: string \x7d`);
the struct itself lives in the external `policy_mcp` crate, which the weld
code only manipulates through its serde image. -/
structure NetworkAllowEntry where
  host : String
deriving DecidableEq, Repr

/-- Modelled from the spec: one `storage.allow` entry
(`\x7b uri: string, access: [read|write] \x7d`). -/
structure StorageAllowEntry where
  uri : String
  access : List AccessType
deriving DecidableEq, Repr

/-- Modelled from the spec: one `environment.allow` entry. -/
structure EnvAllowEntry where
  key : String
deriving DecidableEq, Repr

/-- Network permission section of a policy document. -/
structure NetworkPermission where
  allow : Option (List NetworkAllowEntry)
deriving DecidableEq, Repr

/-- Storage permission section of a policy document. -/
structure StoragePermission where
  allow : Option (List StorageAllowEntry)
deriving DecidableEq, Repr

/-- Environment permission section of a policy document. -/
structure EnvironmentPermission where
  allow : Option (List EnvAllowEntry)
deriving DecidableEq, Repr

/-- Permissions of a policy document. -/
structure PolicyPermissions where
  network : Option NetworkPermission
  storage : Option StoragePermission
  environment : Option EnvironmentPermission
deriving DecidableEq, Repr

/-- Modelled from the spec: the policy document (policy_mcp::PolicyDocument):
version, optional description, permissions. -/
structure PolicyDocument where
  version : String
  description : Option String
  permissions : PolicyPermissions
deriving DecidableEq, Repr

/-- Model of the `PermissionRule` enum of the weld crate. -/
inductive PermissionRule where
  | network (host : String)
  | storage (uri : String) (access : List AccessType)
deriving DecidableEq, Repr

/-- Model of `Value::get` on a JSON value (`Option<&Value>`). -/
def Json.get (j : Json) (key : String) : Option Json :=
  match j with
  | Json.obj fields => Json.lookup fields key
  | _ => none

/-- Model of `Value::as_str`. -/
def Json.asStr : Json → Option String
  | Json.str s => some s
  | _ => none

/-- Parsing of the `access` array elements: each must be the string `read` or
`write`. -/
def parseAccessList : List Json → Except String (List AccessType)
  | [] => Except.ok []
  | Json.str "read" :: rest =>
    match parseAccessList rest with
    | Except.ok acc => Except.ok (AccessType.read :: acc)
    | Except.error e => Except.error e
  | Json.str "write" :: rest =>
    match parseAccessList rest with
    | Except.ok acc => Except.ok (AccessType.write :: acc)
    | Except.error e => Except.error e
  | Json.str other :: _ => Except.error ("Invalid access type: " ++ other)
  | _ :: _ => Except.error "Invalid access type"

/-- Model of `LifecycleManager::parse_permission_rule`. -/
def parse_permission_rule (permission_type : String) (details : Json) :
    Except String PermissionRule :=
  match permission_type with
  | "network" =>
    match (details.get "host").bind Json.asStr with
    | some host => Except.ok (PermissionRule.network host)
    | none => Except.error "Missing host field for network permission"
  | "storage" =>
    match (details.get "uri").bind Json.asStr with
    | none => Except.error "Missing uri field for storage permission"
    | some uri =>
      match details.get "access" with
      | some (Json.arr elems) =>
        match parseAccessList elems with
        | Except.ok access => Except.ok (PermissionRule.storage uri access)
        | Except.error e => Except.error e
      | _ => Except.error "Missing access field for storage permission"
  | other => Except.error ("Unknown permission type: " ++ other)

/-- Model of `LifecycleManager::validate_permission_rule`. -/
def validate_permission_rule : PermissionRule → Except String Unit
  | PermissionRule.network host =>
    if host = "" then Except.error "Network host cannot be empty" else Except.ok ()
  | PermissionRule.storage uri access =>
    if uri = "" then Except.error "Storage URI cannot be empty"
    else if access.isEmpty then Except.error "Storage access cannot be empty"
    else Except.ok ()

/-- Model of `load_or_create_component_policy`: the parsed sidecar when one
exists on disk, otherwise the synthesized minimal policy. -/
def load_or_create_component_policy (onDisk : Option PolicyDocument)
    (component_id : String) : PolicyDocument :=
  onDisk.getD
    { version := "1.0",
      description := some ("Auto-generated policy for component: " ++ component_id),
      permissions := ⟨none, none, none⟩ }

/-- Model of the network-grant dedup: append the host only when no existing
entry carries the same host (the Rust code checks this through the serde
image of each entry). -/
def addNetwork (l : List NetworkAllowEntry) (host : String) : List NetworkAllowEntry :=
  if l.any fun e => e.host = host then l else l ++ [⟨host⟩]

/-- Model of the access-set merge: walk the new access types, appending each
to the current array when absent. -/
def mergeAccess (existing newAccess : List AccessType) : List AccessType :=
  newAccess.foldl (fun cur a => if a ∈ cur then cur else cur ++ [a]) existing

/-- Model of the storage-grant merge: the first entry with the same URI has
its access set merged in place; otherwise a new entry is appended. -/
def addStorage : List StorageAllowEntry → String → List AccessType →
    List StorageAllowEntry
  | [], uri, access => [⟨uri, access⟩]
  | e :: rest, uri, access =>
    if e.uri = uri then { e with access := mergeAccess e.access access } :: rest
    else e :: addStorage rest uri access

/-- Model of `LifecycleManager::add_permission_rule_to_policy` (including the
`get_or_insert_with(Default::default)` chains on the permission sections). -/
def add_permission_rule_to_policy (p : PolicyDocument) :
    PermissionRule → PolicyDocument
  | PermissionRule.network host =>
    let cur := ((p.permissions.network.getD ⟨none⟩).allow).getD []
    { p with permissions :=
        { p.permissions with network := some ⟨some (addNetwork cur host)⟩ } }
  | PermissionRule.storage uri access =>
    let cur := ((p.permissions.storage.getD ⟨none⟩).allow).getD []
    { p with permissions :=
        { p.permissions with storage := some ⟨some (addStorage cur uri access)⟩ } }

/-- Model of `LifecycleManager::grant_permission`: check the component is
loaded, parse and validate the rule, load or synthesize the policy, merge the
rule in, and return the document that `save_component_policy` writes to the
sidecar and `update_policy_registry` installs. -/
def grant_permission (componentLoaded : Bool) (onDisk : Option PolicyDocument)
    (component_id permission_type : String) (details : Json) :
    Except String PolicyDocument :=
  if componentLoaded then
    match parse_permission_rule permission_type details with
    | Except.error e => Except.error e
    | Except.ok rule =>
      match validate_permission_rule rule with
      | Except.error e => Except.error e
      | Except.ok _ =>
        Except.ok (add_permission_rule_to_policy
          (load_or_create_component_policy onDisk component_id) rule)
  else Except.error ("Component not found: " ++ component_id)

/-- Number of `network.allow` entries carrying a given host. -/
def countHost (p : PolicyDocument) (host : String) : Nat :=
  ((((p.permissions.network.getD ⟨none⟩).allow).getD []).filter
    fun e => e.host = host).length

/-- Entries of `storage.allow` carrying a given URI. -/
def storageFor (p : PolicyDocument) (uri : String) : List StorageAllowEntry :=
  (((p.permissions.storage.getD ⟨none⟩).allow).getD []).filter fun e => e.uri = uri

theorem countHost_addNetwork (cur : List NetworkAllowEntry) (host : String)
    (h : (cur.filter fun e => e.host = host).length ≤ 1) :
    ((addNetwork cur host).filter fun e => e.host = host).length = 1 := by
  unfold addNetwork
  by_cases hany : cur.any fun e => e.host = host
  · rw [if_pos hany]
    obtain ⟨x, hx, hxh⟩ := List.any_eq_true.mp hany
    have hmem : x ∈ cur.filter fun e => e.host = host :=
      List.mem_filter.mpr ⟨hx, hxh⟩
    have hpos : 0 < (cur.filter fun e => e.host = host).length :=
      List.length_pos.mpr (List.ne_nil_of_mem hmem)
    omega
  · rw [if_neg hany]
    have hempty : (cur.filter fun e => e.host = host) = [] := by
      rw [List.filter_eq_nil_iff]
      intro x hx hxh
      exact hany (List.any_eq_true.mpr ⟨x, hx, hxh⟩)
    rw [List.filter_append, hempty]
    simp

/-- C5: granting the same network host twice in succession (on a component
whose current policy carries that host at most once, as every policy the
manager itself writes does) yields a stored policy in which the host appears
exactly once under `permissions.network.allow`. -/
theorem C5_network_grant_idempotent (onDisk : Option PolicyDocument)
    (component_id host : String) (hhost : host ≠ "")
    (hcount : countHost (load_or_create_component_policy onDisk component_id) host ≤ 1) :
    ∃ p₁ p₂,
      grant_permission true onDisk component_id "network"
          (Json.obj [("host", Json.str host)]) = Except.ok p₁
      ∧ grant_permission true (some p₁) component_id "network"
          (Json.obj [("host", Json.str host)]) = Except.ok p₂
      ∧ countHost p₂ host = 1 := by
  have hparse : parse_permission_rule "network" (Json.obj [("host", Json.str host)])
      = Except.ok (PermissionRule.network host) := by
    simp [parse_permission_rule, Json.get, Json.lookup, Json.asStr]
  have hvalid : validate_permission_rule (PermissionRule.network host) = Except.ok () := by
    simp [validate_permission_rule, hhost]
  set p₀ := load_or_create_component_policy onDisk component_id with hp₀
  set cur := ((p₀.permissions.network.getD ⟨none⟩).allow).getD [] with hcur
  have hg₁ : grant_permission true onDisk component_id "network"
      (Json.obj [("host", Json.str host)])
      = Except.ok (add_permission_rule_to_policy p₀ (PermissionRule.network host)) := by
    unfold grant_permission
    rw [if_pos rfl, hparse]
    dsimp only
    rw [hvalid]
  set p₁ := add_permission_rule_to_policy p₀ (PermissionRule.network host) with hp₁
  have hcount₁ : countHost p₁ host = 1 := by
    rw [hp₁]
    unfold add_permission_rule_to_policy countHost
    dsimp only
    rw [← hcur]
    exact countHost_addNetwork cur host (by rw [hcur]; exact hcount)
  have hg₂ : grant_permission true (some p₁) component_id "network"
      (Json.obj [("host", Json.str host)])
      = Except.ok (add_permission_rule_to_policy p₁ (PermissionRule.network host)) := by
    unfold grant_permission
    rw [if_pos rfl, hparse]
    dsimp only
    rw [hvalid]
    rfl
  set p₂ := add_permission_rule_to_policy p₁ (PermissionRule.network host) with hp₂
  have hcount₂ : countHost p₂ host = 1 := by
    rw [hp₂]
    unfold add_permission_rule_to_policy countHost
    dsimp only
    exact countHost_addNetwork _ host (by
      unfold countHost at hcount₁
      omega)
  exact ⟨p₁, p₂, hg₁, hg₂, hcount₂⟩

/-- C5 witness: two grants of `example.com` on a component with no policy
sidecar leave exactly one allow entry for it. -/
theorem C5_network_grant_idempotent_witness :
    ("example.com" ≠ ""
      ∧ countHost (load_or_create_component_policy none "c") "example.com" ≤ 1)
    ∧ ∃ p₁ p₂,
      grant_permission true none "c" "network"
          (Json.obj [("host", Json.str "example.com")]) = Except.ok p₁
      ∧ grant_permission true (some p₁) "c" "network"
          (Json.obj [("host", Json.str "example.com")]) = Except.ok p₂
      ∧ countHost p₂ "example.com" = 1 := by
  have h₁ : ("example.com" : String) ≠ "" := by decide
  have h₂ : countHost (load_or_create_component_policy none "c") "example.com" ≤ 1 := by
    simp [countHost, load_or_create_component_policy]
  exact ⟨⟨h₁, h₂⟩, C5_network_grant_idempotent none "c" "example.com" h₁ h₂⟩

theorem addStorage_not_found {l : List StorageAllowEntry} {uri : String}
    (access : List AccessType) (h : ∀ e ∈ l, e.uri ≠ uri) :
    addStorage l uri access = l ++ [⟨uri, access⟩] := by
  induction l with
  | nil => simp [addStorage]
  | cons e rest ih =>
    simp only [addStorage]
    rw [if_neg (h e (by simp))]
    simp only [List.cons_append, List.cons.injEq, true_and]
    exact ih fun x hx => h x (by simp [hx])

theorem addStorage_found {l : List StorageAllowEntry} {uri : String}
    (acc₀ acc₁ : List AccessType) (h : ∀ e ∈ l, e.uri ≠ uri) :
    addStorage (l ++ [⟨uri, acc₀⟩]) uri acc₁ = l ++ [⟨uri, mergeAccess acc₀ acc₁⟩] := by
  induction l with
  | nil => simp [addStorage]
  | cons e rest ih =>
    simp only [List.cons_append, addStorage]
    rw [if_neg (h e (by simp))]
    simp only [List.cons.injEq, true_and]
    exact ih fun x hx => h x (by simp [hx])

/-- C6: granting storage access `read` for a URI and then `write` for the same
URI (on a policy with no existing entry for that URI) yields a single storage
allow entry for the URI whose access list is `[read, write]` — the access sets
are unioned rather than a second entry appended. -/
theorem C6_storage_grant_merges (onDisk : Option PolicyDocument)
    (component_id uri : String) (huri : uri ≠ "")
    (hnone : storageFor (load_or_create_component_policy onDisk component_id) uri = []) :
    ∃ p₁ p₂,
      grant_permission true onDisk component_id "storage"
          (Json.obj [("access", Json.arr [Json.str "read"]), ("uri", Json.str uri)])
        = Except.ok p₁
      ∧ grant_permission true (some p₁) component_id "storage"
          (Json.obj [("access", Json.arr [Json.str "write"]), ("uri", Json.str uri)])
        = Except.ok p₂
      ∧ storageFor p₂ uri = [⟨uri, [AccessType.read, AccessType.write]⟩] := by
  have hparse₁ : parse_permission_rule "storage"
      (Json.obj [("access", Json.arr [Json.str "read"]), ("uri", Json.str uri)])
      = Except.ok (PermissionRule.storage uri [AccessType.read]) := by
    simp +decide [parse_permission_rule, Json.get, Json.lookup, Json.asStr,
      parseAccessList]
  have hparse₂ : parse_permission_rule "storage"
      (Json.obj [("access", Json.arr [Json.str "write"]), ("uri", Json.str uri)])
      = Except.ok (PermissionRule.storage uri [AccessType.write]) := by
    simp +decide [parse_permission_rule, Json.get, Json.lookup, Json.asStr,
      parseAccessList]
  have hvalid₁ : validate_permission_rule (PermissionRule.storage uri [AccessType.read])
      = Except.ok () := by
    simp [validate_permission_rule, huri]
  have hvalid₂ : validate_permission_rule (PermissionRule.storage uri [AccessType.write])
      = Except.ok () := by
    simp [validate_permission_rule, huri]
  set p₀ := load_or_create_component_policy onDisk component_id with hp₀
  set cur := ((p₀.permissions.storage.getD ⟨none⟩).allow).getD [] with hcur
  have hcurne : ∀ e ∈ cur, e.uri ≠ uri := by
    intro e he hEq
    have : e ∈ storageFor p₀ uri := by
      unfold storageFor
      rw [← hcur]
      rw [List.mem_filter]
      exact ⟨he, by simpa using hEq⟩
    rw [hnone] at this
    simp at this
  have hg₁ : grant_permission true onDisk component_id "storage"
      (Json.obj [("access", Json.arr [Json.str "read"]), ("uri", Json.str uri)])
      = Except.ok (add_permission_rule_to_policy p₀
          (PermissionRule.storage uri [AccessType.read])) := by
    unfold grant_permission
    rw [if_pos rfl, hparse₁]
    dsimp only
    rw [hvalid₁]
  set p₁ := add_permission_rule_to_policy p₀ (PermissionRule.storage uri [AccessType.read])
    with hp₁
  have hallow₁ : ((p₁.permissions.storage.getD ⟨none⟩).allow).getD []
      = cur ++ [⟨uri, [AccessType.read]⟩] := by
    rw [hp₁]
    unfold add_permission_rule_to_policy
    dsimp only
    rw [← hcur, addStorage_not_found _ hcurne]
    rfl
  have hg₂ : grant_permission true (some p₁) component_id "storage"
      (Json.obj [("access", Json.arr [Json.str "write"]), ("uri", Json.str uri)])
      = Except.ok (add_permission_rule_to_policy p₁
          (PermissionRule.storage uri [AccessType.write])) := by
    unfold grant_permission
    rw [if_pos rfl, hparse₂]
    dsimp only
    rw [hvalid₂]
    rfl
  set p₂ := add_permission_rule_to_policy p₁ (PermissionRule.storage uri [AccessType.write])
    with hp₂
  have hallow₂ : ((p₂.permissions.storage.getD ⟨none⟩).allow).getD []
      = cur ++ [⟨uri, [AccessType.read, AccessType.write]⟩] := by
    rw [hp₂]
    unfold add_permission_rule_to_policy
    dsimp only
    rw [hallow₁, addStorage_found _ _ hcurne]
    rfl
  refine ⟨p₁, p₂, hg₁, hg₂, ?_⟩
  unfold storageFor
  rw [hallow₂, List.filter_append]
  have hcur_empty : cur.filter (fun e => e.uri = uri) = [] := by
    rw [List.filter_eq_nil_iff]
    intro e he
    simpa using hcurne e he
  rw [hcur_empty]
  simp

/-- C6 witness: granting `read` then `write` on `fs:///data` for a component
with no policy sidecar yields one entry with access `[read, write]`. -/
theorem C6_storage_grant_merges_witness :
    ("fs:///data" ≠ ""
      ∧ storageFor (load_or_create_component_policy none "c") "fs:///data" = [])
    ∧ ∃ p₁ p₂,
      grant_permission true none "c" "storage"
          (Json.obj [("access", Json.arr [Json.str "read"]),
                     ("uri", Json.str "fs:///data")]) = Except.ok p₁
      ∧ grant_permission true (some p₁) "c" "storage"
          (Json.obj [("access", Json.arr [Json.str "write"]),
                     ("uri", Json.str "fs:///data")]) = Except.ok p₂
      ∧ storageFor p₂ "fs:///data" = [⟨"fs:///data", [AccessType.read, AccessType.write]⟩] := by
  have h₁ : ("fs:///data" : String) ≠ "" := by decide
  have h₂ : storageFor (load_or_create_component_policy none "c") "fs:///data" = [] := by
    simp [storageFor, load_or_create_component_policy]
  exact ⟨⟨h₁, h₂⟩, C6_storage_grant_merges none "c" "fs:///data" h₁ h₂⟩

end Wassette
